import Mathlib

/-!
Verification of the Saito consensus core (saito-rust-workspace) against its
natural-language specification.

The definitions below are a shallow embedding of the Rust sources under
src/saito-core/src/core/data/ (blockchain.rs, blockring.rs, mempool.rs,
wallet.rs, msg/handshake.rs).  Machine integers are modelled as Nat (with
explicit wrapping arithmetic where u64 wrapping is observable), byte arrays
as lists of Nat, hash maps as association lists (when the code iterates or
tests emptiness) or as functions to Option (when only pointwise access
occurs).  Code that can panic (unwrap, assert, index out of bounds) or that
can loop without bound is modelled in Option, with none for the panicking
or non-terminating executions; unbounded loops take a fuel argument.

Several files of the repository (block.rs, slip.rs, burnfee.rs, ringitem.rs,
storage.rs, transaction.rs, golden_ticket.rs) are not part of the provided
sources; the operations they define are modelled from the specification, and
each such definition carries a doc comment saying so.
-/

/-- Bytes are natural numbers below 256; a SaitoHash is a 32-byte digest. -/
abbrev SaitoHash := List Nat

/-- The all-zero 32-byte hash, written [0; 32] in the source. -/
def zeroHash : SaitoHash := List.replicate 32 0

/-- Currency units (u128 in the source; modelled as Nat, exact in the
regime of the claims, which never exercise u128 wrap-around). -/
abbrev Currency := Nat

/-- Association-list lookup, modelling AHashMap::get. -/
def alookup {K V : Type} [DecidableEq K] : List (K × V) → K → Option V
  | [], _ => none
  | (k, v) :: rest, key => if k = key then some v else alookup rest key

/-- Association-list insert, modelling AHashMap::insert (overrides). -/
def ainsert {K V : Type} [DecidableEq K] (m : List (K × V)) (k : K) (v : V) :
    List (K × V) :=
  (k, v) :: m.filter (fun p => p.1 ≠ k)

/-- Association-list removal, modelling AHashMap::remove. -/
def aremove {K V : Type} [DecidableEq K] (m : List (K × V)) (k : K) :
    List (K × V) :=
  m.filter (fun p => p.1 ≠ k)

/-- Association-list pointwise update of an existing entry, modelling
mutation through AHashMap::get_mut (absent keys are left untouched). -/
def aupdate {K V : Type} [DecidableEq K] (m : List (K × V)) (k : K)
    (f : V → V) : List (K × V) :=
  m.map (fun p => if p.1 = k then (p.1, f p.2) else p)

theorem alookup_ainsert {K V : Type} [DecidableEq K] (m : List (K × V))
    (k : K) (v : V) : alookup (ainsert m k v) k = some v := by
  simp [ainsert, alookup]

theorem alookup_filter_ne {K V : Type} [DecidableEq K] (m : List (K × V))
    (k k2 : K) (h : k ≠ k2) :
    alookup (m.filter (fun p => p.1 ≠ k)) k2 = alookup m k2 := by
  induction m with
  | nil => rfl
  | cons p rest ih =>
    rcases p with ⟨pk, pv⟩
    by_cases hp : pk = k
    · have hpk2 : pk ≠ k2 := by rw [hp]; exact h
      rw [show ((pk, pv) :: rest).filter (fun p => p.1 ≠ k)
            = rest.filter (fun p => p.1 ≠ k) by simp [List.filter, hp]]
      rw [ih, alookup, if_neg hpk2]
    · rw [show ((pk, pv) :: rest).filter (fun p => p.1 ≠ k)
            = (pk, pv) :: rest.filter (fun p => p.1 ≠ k) by
          simp [List.filter, hp]]
      by_cases hp2 : pk = k2
      · rw [alookup, if_pos hp2, alookup, if_pos hp2]
      · rw [alookup, if_neg hp2, alookup, if_neg hp2, ih]

theorem alookup_ainsert_ne {K V : Type} [DecidableEq K] (m : List (K × V))
    (k k2 : K) (v : V) (h : k ≠ k2) :
    alookup (ainsert m k v) k2 = alookup m k2 := by
  rw [ainsert, alookup, if_neg h, alookup_filter_ne m k k2 h]

theorem alookup_aremove {K V : Type} [DecidableEq K] (m : List (K × V))
    (k : K) : alookup (aremove m k) k = none := by
  induction m with
  | nil => rfl
  | cons p rest ih =>
    rcases p with ⟨pk, pv⟩
    by_cases hp : pk = k
    · rw [show aremove ((pk, pv) :: rest) k = aremove rest k by
          simp [aremove, List.filter, hp]]
      exact ih
    · rw [show aremove ((pk, pv) :: rest) k = (pk, pv) :: aremove rest k by
          simp [aremove, List.filter, hp]]
      rw [alookup, if_neg hp]
      exact ih

theorem alookup_aremove_ne {K V : Type} [DecidableEq K] (m : List (K × V))
    (k k2 : K) (h : k ≠ k2) :
    alookup (aremove m k) k2 = alookup m k2 :=
  alookup_filter_ne m k k2 h

theorem alookup_aupdate {K V : Type} [DecidableEq K] (m : List (K × V))
    (k : K) (f : V → V) :
    alookup (aupdate m k f) k = (alookup m k).map f := by
  induction m with
  | nil => rfl
  | cons p rest ih =>
    rcases p with ⟨pk, pv⟩
    by_cases hp : pk = k
    · rw [show aupdate ((pk, pv) :: rest) k f
            = (pk, f pv) :: aupdate rest k f by simp [aupdate, hp]]
      rw [alookup, if_pos hp, alookup, if_pos hp]
      rfl
    · rw [show aupdate ((pk, pv) :: rest) k f
            = (pk, pv) :: aupdate rest k f by simp [aupdate, hp]]
      rw [alookup, if_neg hp, alookup, if_neg hp, ih]

theorem alookup_aupdate_ne {K V : Type} [DecidableEq K] (m : List (K × V))
    (k k2 : K) (f : V → V) (h : k ≠ k2) :
    alookup (aupdate m k2 f) k = alookup m k := by
  induction m with
  | nil => rfl
  | cons p rest ih =>
    rcases p with ⟨pk, pv⟩
    by_cases hp2 : pk = k2
    · have hpk : pk ≠ k := by rw [hp2]; exact fun e => h e.symm
      rw [show aupdate ((pk, pv) :: rest) k2 f
            = (pk, f pv) :: aupdate rest k2 f by simp [aupdate, hp2]]
      rw [alookup, if_neg hpk, alookup, if_neg hpk, ih]
    · rw [show aupdate ((pk, pv) :: rest) k2 f
            = (pk, pv) :: aupdate rest k2 f by simp [aupdate, hp2]]
      by_cases hpk : pk = k
      · rw [alookup, if_pos hpk, alookup, if_pos hpk]
      · rw [alookup, if_neg hpk, alookup, if_neg hpk, ih]

/-- Big-endian byte encoding of a machine integer on w bytes, modelling
u64::to_be_bytes and u32::to_be_bytes. -/
def beBytes : Nat → Nat → List Nat
  | 0, _ => []
  | w + 1, n => beBytes w (n / 256) ++ [n % 256]

/-- Big-endian byte decoding, modelling u64::from_be_bytes and
u32::from_be_bytes. -/
def fromBeBytes (bs : List Nat) : Nat :=
  bs.foldl (fun acc b => acc * 256 + b) 0

theorem fromBeBytes_append (xs ys : List Nat) :
    fromBeBytes (xs ++ ys) =
      ys.foldl (fun acc b => acc * 256 + b) (fromBeBytes xs) := by
  simp [fromBeBytes, List.foldl_append]

theorem fromBeBytes_beBytes (w n : Nat) (h : n < 256 ^ w) :
    fromBeBytes (beBytes w n) = n := by
  induction w generalizing n with
  | zero => simpa [fromBeBytes, beBytes] using (Nat.lt_one_iff.mp h).symm
  | succ w ih =>
    have hdiv : n / 256 < 256 ^ w := by
      rw [Nat.div_lt_iff_lt_mul (by norm_num)]
      calc n < 256 ^ (w + 1) := h
        _ = 256 ^ w * 256 := by ring
    calc fromBeBytes (beBytes (w + 1) n)
        = fromBeBytes (beBytes w (n / 256) ++ [n % 256]) := rfl
      _ = fromBeBytes (beBytes w (n / 256)) * 256 + n % 256 := by
          simp [fromBeBytes_append, fromBeBytes]
      _ = n / 256 * 256 + n % 256 := by rw [ih _ hdiv]
      _ = n := by omega

theorem beBytes_length (w n : Nat) : (beBytes w n).length = w := by
  induction w generalizing n with
  | zero => rfl
  | succ w ih => simp [beBytes, ih]

/-! ## Core data model (block.rs, slip.rs, transaction.rs are not among the
provided sources; their data shapes are modelled from the specification,
section 3, restricted to the fields the provided sources read). -/

/-- Transaction kinds, from the specification data model. -/
inductive TransactionType where
  | Normal
  | Fee
  | GoldenTicket
  | Issuance
  | Vip
deriving DecidableEq

/-- Storage tiers of a block, from the specification data model. -/
inductive BlockType where
  | Ghost
  | Header
  | Pruned
  | Full
deriving DecidableEq

/-- Composite UTXO key.  Modelled from the spec: the utxoset_key is a pure
function of the four locator fields plus public_key and amount (in the
source it is a 66-byte concatenation of exactly these fields, so the
encoding is injective and is modelled as the tuple itself). -/
structure UtxoKey where
  public_key : List Nat
  block_id : Nat
  tx_ordinal : Nat
  slip_index : Nat
  amount : Currency
deriving DecidableEq

/-- One UTXO slip.  Modelled from the spec data model (slip.rs is not among
the provided sources). -/
structure Slip where
  public_key : List Nat
  amount : Currency
  block_id : Nat
  tx_ordinal : Nat
  slip_index : Nat
deriving DecidableEq

/-- Modelled from the spec: utxoset_key is a pure function of the locator
fields plus public_key and amount. -/
def Slip.get_utxoset_key (s : Slip) : UtxoKey :=
  ⟨s.public_key, s.block_id, s.tx_ordinal, s.slip_index, s.amount⟩

/-- Mirror of the cached utxoset_key field read by wallet.rs; in the source
it stores the value of get_utxoset_key. -/
def Slip.utxoset_key (s : Slip) : UtxoKey :=
  s.get_utxoset_key

/-- Transactions, restricted to the fields the provided sources read. -/
structure Transaction where
  signature : List Nat
  transaction_type : TransactionType
  inputs : List Slip
  outputs : List Slip
  total_fees : Currency
  total_work_for_me : Currency
  hash_for_signature : Option SaitoHash
  message : List Nat
deriving DecidableEq

/-- Blocks, restricted to the fields the provided sources read. -/
structure Block where
  id : Nat
  hash : SaitoHash
  previous_block_hash : SaitoHash
  timestamp : Nat
  burnfee : Currency
  difficulty : Nat
  has_golden_ticket : Bool
  transactions : List Transaction
  creator : List Nat
  in_longest_chain : Bool
  block_type : BlockType
  source_connection_id : Option (List Nat)
deriving DecidableEq

/-- Modelled from the spec: block.generate() recomputes derived fields
(hash, pre_hash, merkle root).  The embedding treats blocks as already
carrying their derived fields, so the recomputation is the identity. -/
def Block.generate (b : Block) : Block := b

/-- The UtxoSet: mapping from slip key to spendable flag (true = spendable,
false = known but spent, absent = unknown). -/
def UtxoSet := UtxoKey → Option Bool

/-- Pointwise map update (AHashMap::insert on a function-typed map). -/
def UtxoSet.set (u : UtxoSet) (k : UtxoKey) (v : Bool) : UtxoSet :=
  fun k2 => if k2 = k then some v else u k2

/-- Modelled from the spec (4.2 and 4.5.3): winding a transaction marks
every input key spent (false) and inserts every output key as spendable
(true). -/
def Transaction.utxoWind (tx : Transaction) (u : UtxoSet) : UtxoSet :=
  (tx.outputs.foldl (fun acc s => acc.set s.get_utxoset_key true)
    (tx.inputs.foldl (fun acc s => acc.set s.get_utxoset_key false) u))

/-- Modelled from the spec (4.5.3 unwind step 2): flip inputs back to
spendable, flip outputs to spent. -/
def Transaction.utxoUnwind (tx : Transaction) (u : UtxoSet) : UtxoSet :=
  (tx.outputs.foldl (fun acc s => acc.set s.get_utxoset_key false)
    (tx.inputs.foldl (fun acc s => acc.set s.get_utxoset_key true) u))

/-- Modelled from the spec: block.on_chain_reorganization updates the
UtxoSet for every transaction (in order when winding, in reverse when
unwinding) and records the longest-chain flag on the block itself
(4.5.3 wind step 5 and unwind steps 2 and 3). -/
def Block.on_chain_reorganization (b : Block) (u : UtxoSet) (lc : Bool) :
    Block × UtxoSet :=
  if lc then
    ({ b with in_longest_chain := true },
      b.transactions.foldl (fun acc tx => tx.utxoWind acc) u)
  else
    ({ b with in_longest_chain := false },
      b.transactions.reverse.foldl (fun acc tx => tx.utxoUnwind acc) u)

/-- Modelled from the spec (4.2, 4.5.3 step 3c): a transaction spends
validly when every positive input is present and spendable in the UtxoSet;
the full signature and consensus checks of the missing transaction.rs are
outside the provided sources and are not needed by the claims. -/
def Transaction.validate_against_utxoset (tx : Transaction) (u : UtxoSet) :
    Bool :=
  tx.inputs.all (fun s => s.amount = 0 || u s.get_utxoset_key == some true)

/-- Modelled from the spec: tx.validate(utxoset) performs the same UtxoSet
spendability check (plus signature checks not represented here). -/
def Transaction.validate (tx : Transaction) (u : UtxoSet) : Bool :=
  tx.validate_against_utxoset u

/-- Modelled from the spec: GoldenTicket payload {target, random,
public_key}, deserialized from a transaction message laid out as the
concatenation of the three fields. -/
structure GoldenTicket where
  target : SaitoHash
  random : List Nat
  public_key : List Nat
deriving DecidableEq

/-- Modelled from the spec: GoldenTicket::deserialize_from_net splits the
message into target, random and public key. -/
def GoldenTicket.deserialize_from_net (msg : List Nat) : GoldenTicket :=
  ⟨msg.take 32, (msg.drop 32).take 32, msg.drop 64⟩

/-! ## Handshake wire format (msg/handshake.rs) -/

/-- HandshakeResponse, from msg/handshake.rs.  The url String is modelled
by its UTF-8 byte sequence. -/
structure HandshakeResponse where
  public_key : List Nat
  signature : List Nat
  is_lite : Nat
  block_fetch_url : List Nat
  challenge : SaitoHash
deriving DecidableEq

/-- HandshakeResponse::serialize, from msg/handshake.rs: public key,
signature, counter-challenge, 8-byte big-endian is_lite, 4-byte big-endian
url length (the u32 cast truncates, which beBytes reproduces since the
encoding only depends on the value modulo 2^32), url bytes. -/
def HandshakeResponse.serialize (r : HandshakeResponse) : List Nat :=
  r.public_key ++ r.signature ++ r.challenge ++
    beBytes 8 r.is_lite ++ beBytes 4 r.block_fetch_url.length ++
    r.block_fetch_url

/-- HandshakeResponse::deserialize, from msg/handshake.rs.  none models
both the Err(InvalidData) return (buffer shorter than 141 bytes, or url
bytes that are not valid UTF-8 - the latter cannot arise here because url
strings are modelled by their byte sequences) and the panic on a buffer
shorter than 141 + url_length. -/
def HandshakeResponse.deserialize (buffer : List Nat) :
    Option HandshakeResponse :=
  if buffer.length < 141 then none
  else
    let url_length := fromBeBytes ((buffer.drop 137).take 4)
    if url_length > 0 then
      if buffer.length < 141 + url_length then none
      else some
        { public_key := buffer.take 33
          signature := (buffer.drop 33).take 64
          challenge := (buffer.drop 97).take 32
          is_lite := fromBeBytes ((buffer.drop 129).take 8)
          block_fetch_url := (buffer.drop 141).take url_length }
    else some
      { public_key := buffer.take 33
        signature := (buffer.drop 33).take 64
        challenge := (buffer.drop 97).take 32
        is_lite := fromBeBytes ((buffer.drop 129).take 8)
        block_fetch_url := [] }

theorem serialize_assoc (r : HandshakeResponse) :
    r.serialize = r.public_key ++ (r.signature ++ (r.challenge ++
      (beBytes 8 r.is_lite ++ (beBytes 4 r.block_fetch_url.length ++
        r.block_fetch_url)))) := by
  simp [HandshakeResponse.serialize, List.append_assoc]

theorem serialize_length (r : HandshakeResponse)
    (h1 : r.public_key.length = 33) (h2 : r.signature.length = 64)
    (h3 : r.challenge.length = 32) :
    r.serialize.length = 141 + r.block_fetch_url.length := by
  simp only [HandshakeResponse.serialize, List.length_append, h1, h2, h3,
    beBytes_length]
  try omega

/-- C9: a serialized HandshakeResponse is exactly the concatenation of the
33-byte public key, 64-byte signature, 32-byte counter-challenge, 8-byte
big-endian is_lite flag, 4-byte big-endian url length and the url bytes,
and deserialize recovers every field from such a buffer. -/
theorem C9_handshake_response_roundtrip (r : HandshakeResponse)
    (h1 : r.public_key.length = 33) (h2 : r.signature.length = 64)
    (h3 : r.challenge.length = 32) (h4 : r.is_lite < 2 ^ 64)
    (h5 : r.block_fetch_url.length < 2 ^ 32) :
    r.serialize = r.public_key ++ r.signature ++ r.challenge ++
        beBytes 8 r.is_lite ++ beBytes 4 r.block_fetch_url.length ++
        r.block_fetch_url ∧
      HandshakeResponse.deserialize r.serialize = some r := by
  refine ⟨rfl, ?_⟩
  have hass := serialize_assoc r
  have hlen := serialize_length r h1 h2 h3
  have d33 : r.serialize.drop 33 = r.signature ++ (r.challenge ++
      (beBytes 8 r.is_lite ++ (beBytes 4 r.block_fetch_url.length ++
        r.block_fetch_url))) := by
    rw [hass]; exact List.drop_left' h1
  have d97 : r.serialize.drop 97 = r.challenge ++
      (beBytes 8 r.is_lite ++ (beBytes 4 r.block_fetch_url.length ++
        r.block_fetch_url)) := by
    have : r.serialize.drop 97 = (r.serialize.drop 33).drop 64 := by
      rw [List.drop_drop]
    rw [this, d33]; exact List.drop_left' h2
  have d129 : r.serialize.drop 129 = beBytes 8 r.is_lite ++
      (beBytes 4 r.block_fetch_url.length ++ r.block_fetch_url) := by
    have : r.serialize.drop 129 = (r.serialize.drop 97).drop 32 := by
      rw [List.drop_drop]
    rw [this, d97]; exact List.drop_left' h3
  have d137 : r.serialize.drop 137 =
      beBytes 4 r.block_fetch_url.length ++ r.block_fetch_url := by
    have : r.serialize.drop 137 = (r.serialize.drop 129).drop 8 := by
      rw [List.drop_drop]
    rw [this, d129]; exact List.drop_left' (beBytes_length 8 _)
  have d141 : r.serialize.drop 141 = r.block_fetch_url := by
    have : r.serialize.drop 141 = (r.serialize.drop 137).drop 4 := by
      rw [List.drop_drop]
    rw [this, d137]; exact List.drop_left' (beBytes_length 4 _)
  have t33 : r.serialize.take 33 = r.public_key := by
    rw [hass]; exact List.take_left' h1
  have t64 : (r.serialize.drop 33).take 64 = r.signature := by
    rw [d33]; exact List.take_left' h2
  have t32 : (r.serialize.drop 97).take 32 = r.challenge := by
    rw [d97]; exact List.take_left' h3
  have t8 : fromBeBytes ((r.serialize.drop 129).take 8) = r.is_lite := by
    rw [d129, List.take_left' (beBytes_length 8 _)]
    exact fromBeBytes_beBytes 8 _ (by
      have : (256 : Nat) ^ 8 = 2 ^ 64 := by norm_num
      omega)
  have t4 : fromBeBytes ((r.serialize.drop 137).take 4) =
      r.block_fetch_url.length := by
    rw [d137, List.take_left' (beBytes_length 4 _)]
    exact fromBeBytes_beBytes 4 _ (by
      have : (256 : Nat) ^ 4 = 2 ^ 32 := by norm_num
      omega)
  rw [HandshakeResponse.deserialize]
  rw [if_neg (by omega)]
  simp only [t4]
  by_cases hurl : r.block_fetch_url.length > 0
  · rw [if_pos hurl, if_neg (by omega)]
    have turl : (r.serialize.drop 141).take r.block_fetch_url.length =
        r.block_fetch_url := by
      rw [d141]; exact List.take_length _
    rw [t33, t64, t32, t8, turl]
  · rw [if_neg hurl]
    have hnil : r.block_fetch_url = [] :=
      List.length_eq_zero.mp (by omega)
    rw [t33, t64, t32, t8]
    rcases r with ⟨pk, sig, il, url, ch⟩
    simp only at hnil
    subst hnil
    rfl

/-- Concrete response used to witness the C9 round trip. -/
def c9Response : HandshakeResponse :=
  { public_key := List.replicate 33 1
    signature := List.replicate 64 2
    is_lite := 1
    block_fetch_url := [104, 116, 116, 112]
    challenge := List.replicate 32 3 }

/-- Witness for C9 at a concrete response. -/
theorem C9_handshake_response_roundtrip_witness :
    c9Response.serialize = c9Response.public_key ++ c9Response.signature ++
        c9Response.challenge ++ beBytes 8 c9Response.is_lite ++
        beBytes 4 c9Response.block_fetch_url.length ++
        c9Response.block_fetch_url ∧
      HandshakeResponse.deserialize c9Response.serialize =
        some c9Response :=
  C9_handshake_response_roundtrip c9Response (by decide) (by decide)
    (by decide) (by norm_num [c9Response]) (by norm_num [c9Response])

/-! ## Mempool (mempool.rs) -/

/-- The Mempool, from mempool.rs (private_key omitted: the provided sources
never read it). -/
structure Mempool where
  blocks_queue : List Block
  transactions : List (List Nat × Transaction)
  golden_tickets : SaitoHash → Option (Transaction × Bool)
  routing_work_in_mempool : Currency
  new_tx_added : Bool
  public_key : List Nat

/-- Mempool::add_block, from mempool.rs: enqueue unless a block with the
same hash is already queued. -/
def Mempool.add_block (m : Mempool) (block : Block) : Mempool :=
  if m.blocks_queue.any (fun b => b.hash = block.hash) then m
  else { m with blocks_queue := m.blocks_queue ++ [block] }

/-- Mempool::add_transaction, from mempool.rs.  If the signature is new,
the routing work counter grows by total_work_for_me, then a GoldenTicket
transaction panics (modelled as none) and any other transaction is
inserted with new_tx_added set.  A duplicate signature leaves the mempool
untouched. -/
def Mempool.add_transaction (m : Mempool) (tx : Transaction) :
    Option Mempool :=
  if (alookup m.transactions tx.signature).isSome then some m
  else
    let m1 := { m with routing_work_in_mempool :=
      m.routing_work_in_mempool + tx.total_work_for_me }
    match tx.transaction_type with
    | TransactionType.GoldenTicket => none
    | _ => some { m1 with
        transactions := ainsert m1.transactions tx.signature tx
        new_tx_added := true }

/-- Mempool::delete_block, from mempool.rs: only the golden ticket
targeting that hash is dropped (the queue retain is commented out in the
source). -/
def Mempool.delete_block (m : Mempool) (block_hash : SaitoHash) : Mempool :=
  { m with golden_tickets :=
      fun k => if k = block_hash then none else m.golden_tickets k }

/-- Mempool::delete_transactions, from mempool.rs: remove golden tickets
by their decoded target and other transactions by signature, then rebuild
routing_work_in_mempool as the sum over the remaining transactions. -/
def Mempool.delete_transactions (m : Mempool) (txs : List Transaction) :
    Mempool :=
  let m1 := txs.foldl (fun acc tx =>
    match tx.transaction_type with
    | TransactionType.GoldenTicket =>
        { acc with golden_tickets := fun k =>
            if k = (GoldenTicket.deserialize_from_net tx.message).target
            then none else acc.golden_tickets k }
    | _ => { acc with transactions := aremove acc.transactions tx.signature })
    m
  { m1 with routing_work_in_mempool :=
      (m1.transactions.map (fun p => p.2.total_work_for_me)).sum }

/-- Mempool::get_routing_work_available, from mempool.rs. -/
def Mempool.get_routing_work_available (m : Mempool) : Currency :=
  m.routing_work_in_mempool

/-- C10: submitting a transaction whose signature is already a key of the
transactions map leaves the mempool completely unchanged; in particular
the routing-work counter is not increased a second time. -/
theorem C10_duplicate_transaction_noop (m : Mempool) (tx : Transaction)
    (hgt : tx.transaction_type ≠ TransactionType.GoldenTicket)
    (hdup : (alookup m.transactions tx.signature).isSome) :
    m.add_transaction tx = some m := by
  unfold Mempool.add_transaction
  rw [if_pos hdup]

/-- Concrete transaction used to witness C10. -/
def c10Tx : Transaction :=
  { signature := List.replicate 64 7
    transaction_type := TransactionType.Normal
    inputs := []
    outputs := []
    total_fees := 5
    total_work_for_me := 5
    hash_for_signature := some (List.replicate 32 9)
    message := [] }

/-- Concrete mempool already holding c10Tx, used to witness C10. -/
def c10Mempool : Mempool :=
  { blocks_queue := []
    transactions := [(c10Tx.signature, c10Tx)]
    golden_tickets := fun _ => none
    routing_work_in_mempool := 5
    new_tx_added := false
    public_key := List.replicate 33 4 }

/-- Witness for C10 at a concrete mempool and transaction. -/
theorem C10_duplicate_transaction_noop_witness :
    c10Mempool.add_transaction c10Tx = some c10Mempool :=
  C10_duplicate_transaction_noop c10Mempool c10Tx (by decide) (by decide)

/-! ## BlockRing (blockring.rs) and its ring items -/

/-- Window constants, from blockchain.rs and blockring.rs. -/
def GENESIS_PERIOD : Nat := 100000

def PRUNE_AFTER_BLOCKS : Nat := 6

def MAX_STAKER_RECURSION : Nat := 3

def MIN_GOLDEN_TICKETS_NUMERATOR : Nat := 2

def MIN_GOLDEN_TICKETS_DENOMINATOR : Nat := 6

def RING_BUFFER_LENGTH : Nat := 2 * GENESIS_PERIOD

/-- One slot of the BlockRing.  Modelled from the spec (ringitem.rs is not
among the provided sources): parallel vectors of block ids and hashes plus
the index of the longest-chain entry. -/
structure RingItem where
  block_ids : List Nat
  block_hashes : List SaitoHash
  lc_pos : Option Nat

/-- Modelled from the spec: a fresh empty slot. -/
def RingItem.new : RingItem := ⟨[], [], none⟩

/-- Modelled from the spec: appends (id, hash) to the slot. -/
def RingItem.add_block (item : RingItem) (id : Nat) (hash : SaitoHash) :
    RingItem :=
  { item with block_ids := item.block_ids ++ [id]
              block_hashes := item.block_hashes ++ [hash] }

/-- Modelled from the spec: slot membership test for a hash. -/
def RingItem.contains_block_hash (item : RingItem) (hash : SaitoHash) :
    Bool :=
  item.block_hashes.any (fun h => h = hash)

/-- Modelled from the spec (4.1): when longest, point the slot lc_pos at
the given hash (failing when the hash is absent); otherwise clear it.
The Bool result reports success, as blockring.rs requires. -/
def RingItem.on_chain_reorganization (item : RingItem) (hash : SaitoHash)
    (lc : Bool) : RingItem × Bool :=
  if lc then
    match item.block_hashes.indexOf? hash with
    | some idx => ({ item with lc_pos := some idx }, true)
    | none => (item, false)
  else
    ({ item with lc_pos := none }, true)

/-- Modelled from the spec (4.1): remove the matching (id, hash) entry;
the slot lc_pos is rebuilt only in the sense that a deleted selected entry
leaves it unset. -/
def RingItem.delete_block (item : RingItem) (id : Nat) (hash : SaitoHash) :
    RingItem :=
  match item.block_ids.indexOf? id with
  | none => item
  | some idx =>
    if item.block_hashes.getD idx [] = hash then
      { block_ids := item.block_ids.eraseIdx idx
        block_hashes := item.block_hashes.eraseIdx idx
        lc_pos := if item.lc_pos = some idx then none else item.lc_pos }
    else item

/-- The BlockRing, from blockring.rs.  The vector of 2 * GENESIS_PERIOD
slots is modelled as a function from slot index to slot (indexing is
always through id mod RING_BUFFER_LENGTH, which the function represents
exactly). -/
structure BlockRing where
  ring : Nat → RingItem
  lc_pos : Option Nat
  empty : Bool

/-- BlockRing::new, from blockring.rs. -/
def BlockRing.new : BlockRing :=
  ⟨fun _ => RingItem.new, none, true⟩

/-- Pointwise slot update for the function-typed ring vector. -/
def BlockRing.setSlot (br : BlockRing) (pos : Nat) (item : RingItem) :
    BlockRing :=
  { br with ring := fun i => if i = pos then item else br.ring i }

/-- BlockRing::add_block, from blockring.rs. -/
def BlockRing.add_block (br : BlockRing) (block : Block) : BlockRing :=
  let insert_pos := block.id % RING_BUFFER_LENGTH
  br.setSlot insert_pos ((br.ring insert_pos).add_block block.id block.hash)

/-- BlockRing::contains_block_hash_at_block_id, from blockring.rs. -/
def BlockRing.contains_block_hash_at_block_id (br : BlockRing)
    (block_id : Nat) (block_hash : SaitoHash) : Bool :=
  (br.ring (block_id % RING_BUFFER_LENGTH)).contains_block_hash block_hash

/-- BlockRing::get_latest_block_hash, from blockring.rs. -/
def BlockRing.get_latest_block_hash (br : BlockRing) : SaitoHash :=
  match br.lc_pos with
  | some ring_pos =>
    match (br.ring ring_pos).lc_pos with
    | some item_pos => ((br.ring ring_pos).block_hashes.getD item_pos zeroHash)
    | none => zeroHash
  | none => zeroHash

/-- BlockRing::get_latest_block_id, from blockring.rs. -/
def BlockRing.get_latest_block_id (br : BlockRing) : Nat :=
  match br.lc_pos with
  | some ring_pos =>
    match (br.ring ring_pos).lc_pos with
    | some item_pos => ((br.ring ring_pos).block_ids.getD item_pos 0)
    | none => 0
  | none => 0

/-- BlockRing::get_longest_chain_block_hash_by_block_id, from
blockring.rs. -/
def BlockRing.get_longest_chain_block_hash_by_block_id (br : BlockRing)
    (id : Nat) : SaitoHash :=
  let insert_pos := id % RING_BUFFER_LENGTH
  match (br.ring insert_pos).lc_pos with
  | some lc_pos => ((br.ring insert_pos).block_hashes.getD lc_pos zeroHash)
  | none => zeroHash

/-- BlockRing::is_empty, from blockring.rs. -/
def BlockRing.is_empty (br : BlockRing) : Bool :=
  br.empty

/-- BlockRing::delete_block, from blockring.rs. -/
def BlockRing.delete_block (br : BlockRing) (block_id : Nat)
    (block_hash : SaitoHash) : BlockRing :=
  let insert_pos := block_id % RING_BUFFER_LENGTH
  br.setSlot insert_pos
    ((br.ring insert_pos).delete_block block_id block_hash)

/-- BlockRing::get_block_hashes_at_block_id, from blockring.rs. -/
def BlockRing.get_block_hashes_at_block_id (br : BlockRing)
    (block_id : Nat) : List SaitoHash :=
  let insert_pos := block_id % RING_BUFFER_LENGTH
  let item := br.ring insert_pos
  (List.range item.block_hashes.length).filterMap (fun i =>
    if item.block_ids.getD i 0 = block_id
    then some (item.block_hashes.getD i zeroHash) else none)

/-- BlockRing::on_chain_reorganization, from blockring.rs: update the
slot, then maintain the top-level lc_pos: setting the longest chain moves
it to this slot; clearing the slot that currently holds the tip rolls the
top-level pointer back to the previous slot when that slot selects an
entry with block id exactly block_id - 1, and unsets it otherwise. -/
def BlockRing.on_chain_reorganization (br : BlockRing) (block_id : Nat)
    (hash : SaitoHash) (lc : Bool) : BlockRing × Bool :=
  let insert_pos := block_id % RING_BUFFER_LENGTH
  let (item1, ok) := (br.ring insert_pos).on_chain_reorganization hash lc
  if !ok then (br, false)
  else
    let br1 := br.setSlot insert_pos item1
    if lc then ({ br1 with lc_pos := some insert_pos }, true)
    else
      match br1.lc_pos with
      | some lc_pos =>
        if lc_pos = insert_pos then
          let previous_block_index :=
            if lc_pos > 0 then lc_pos - 1 else RING_BUFFER_LENGTH - 1
          let br2 := { br1 with lc_pos := none }
          match (br2.ring previous_block_index).lc_pos with
          | some prev_lc_pos =>
            if (br2.ring previous_block_index).block_ids.length >
                prev_lc_pos ∧
                (br2.ring previous_block_index).block_ids.getD prev_lc_pos 0
                  = block_id - 1 then
              ({ br2 with lc_pos := some previous_block_index }, true)
            else (br2, true)
          | none => (br2, true)
        else (br1, true)
      | none => (br1, true)

/-! ## Wallet (wallet.rs) -/

/-- A tracked wallet slip, from wallet.rs. -/
structure WalletSlip where
  utxokey : UtxoKey
  amount : Currency
  block_id : Nat
  tx_ordinal : Nat
  lc : Bool
  slip_index : Nat
  spent : Bool
deriving DecidableEq

/-- WalletSlip::new, from wallet.rs (the 66-byte zero key is the zero
tuple in the key model). -/
def WalletSlip.new : WalletSlip :=
  { utxokey := ⟨[], 0, 0, 0, 0⟩
    amount := 0
    block_id := 0
    tx_ordinal := 0
    lc := true
    slip_index := 0
    spent := false }

/-- The wallet mirror, from wallet.rs, restricted to the slip-tracking
state (keys and files are not read by the claims).  available_balance is
u128 in the source; it is modelled as Int, exact in the regime of the
claims, which never exercise u128 wrap-around. -/
structure Wallet where
  public_key : List Nat
  slips : UtxoKey → Option WalletSlip
  unspent_slips : UtxoKey → Bool
  available_balance : Int

/-- Wallet::add_slip, from wallet.rs: build a WalletSlip carrying the
processed block id and transaction index, insert its key as unspent, grow
the balance, and store it (replacing any previous entry).  The
assert_ne!(block.id, 0) panic is modelled as none. -/
def Wallet.add_slip (w : Wallet) (block : Block) (tx_index : Nat)
    (slip : Slip) (lc : Bool) : Option Wallet :=
  if block.id = 0 then none
  else
    let ws : WalletSlip :=
      { utxokey := slip.get_utxoset_key
        amount := slip.amount
        slip_index := slip.slip_index
        block_id := block.id
        tx_ordinal := tx_index
        lc := lc
        spent := false }
    some { w with
      unspent_slips := fun k => if k = ws.utxokey then true
        else w.unspent_slips k
      available_balance := w.available_balance + slip.amount
      slips := fun k => if k = ws.utxokey then some ws else w.slips k }

/-- Wallet::delete_slip, from wallet.rs: remove the key from the slip map
and the unspent set; the balance shrinks only when the key was both
tracked and unspent. -/
def Wallet.delete_slip (w : Wallet) (slip : Slip) : Wallet :=
  let key := slip.utxoset_key
  let result := w.slips key
  let in_unspent := w.unspent_slips key
  let w1 := { w with
    slips := fun k => if k = key then none else w.slips k
    unspent_slips := fun k => if k = key then false else w.unspent_slips k }
  match result with
  | some removed =>
    if in_unspent then
      { w1 with available_balance := w1.available_balance - removed.amount }
    else w1
  | none => w1

/-- One transaction step of Wallet::on_chain_reorganization with
longest = true: delete every owned positive input slip, then add every
owned positive output slip. -/
def Wallet.windTx (w : Wallet) (block : Block) (tx_index : Nat)
    (tx : Transaction) : Option Wallet :=
  let w1 := tx.inputs.foldl (fun acc inp =>
    if inp.amount > 0 ∧ inp.public_key = acc.public_key
    then acc.delete_slip inp else acc) w
  tx.outputs.foldlM (fun acc out =>
    if out.amount > 0 ∧ out.public_key = acc.public_key
    then acc.add_slip block tx_index out true else some acc) w1

/-- One transaction step of Wallet::on_chain_reorganization with
longest = false: add back every owned positive input slip, then delete
every owned positive output slip. -/
def Wallet.unwindTx (w : Wallet) (block : Block) (tx_index : Nat)
    (tx : Transaction) : Option Wallet := do
  let w1 ← tx.inputs.foldlM (fun acc inp =>
    if inp.amount > 0 ∧ inp.public_key = acc.public_key
    then acc.add_slip block tx_index inp true else some acc) w
  some (tx.outputs.foldl (fun acc out =>
    if out.amount > 0 ∧ out.public_key = acc.public_key
    then acc.delete_slip out else acc) w1)

/-- Wallet::on_chain_reorganization, from wallet.rs: iterate the
transactions of the block in order (enumerated), winding or unwinding the
owned slips of each. -/
def Wallet.on_chain_reorganization (w : Wallet) (block : Block)
    (lc : Bool) : Option Wallet :=
  if lc then
    block.transactions.enum.foldlM
      (fun acc p => acc.windTx block p.1 p.2) w
  else
    block.transactions.enum.foldlM
      (fun acc p => acc.unwindTx block p.1 p.2) w

/-- Wallet::delete_block, from wallet.rs: drop every input slip and every
positive output slip of the block. -/
def Wallet.delete_block (w : Wallet) (block : Block) : Wallet :=
  block.transactions.foldl (fun acc tx =>
    let acc1 := tx.inputs.foldl (fun a inp => a.delete_slip inp) acc
    tx.outputs.foldl (fun a out =>
      if out.amount > 0 then a.delete_slip out else a) acc1) w

/-! ## Blockchain state and pure queries (blockchain.rs) -/

/-- Result kind of Blockchain::add_block, from blockchain.rs. -/
inductive AddBlockResult where
  | BlockAdded
  | BlockAlreadyExists
  | FailedButRetry
  | FailedNotValid
deriving DecidableEq

/-- The Blockchain, from blockchain.rs.  The wallet sits behind a lock in
the source and is written only while the blockchain lock is held, so it is
modelled as a field. -/
structure Blockchain where
  utxoset : UtxoSet
  blockring : BlockRing
  blocks : List (SaitoHash × Block)
  wallet : Wallet
  genesis_block_id : Nat
  fork_id : SaitoHash

/-- Blockchain::get_latest_block_hash, from blockchain.rs. -/
def Blockchain.get_latest_block_hash (bc : Blockchain) : SaitoHash :=
  bc.blockring.get_latest_block_hash

/-- Blockchain::get_latest_block_id, from blockchain.rs. -/
def Blockchain.get_latest_block_id (bc : Blockchain) : Nat :=
  bc.blockring.get_latest_block_id

/-- Blockchain::get_latest_block, from blockchain.rs. -/
def Blockchain.get_latest_block (bc : Blockchain) : Option Block :=
  alookup bc.blocks bc.blockring.get_latest_block_hash

/-- Blockchain::get_block_sync and get_block, from blockchain.rs. -/
def Blockchain.get_block_sync (bc : Blockchain) (block_hash : SaitoHash) :
    Option Block :=
  alookup bc.blocks block_hash

/-- Blockchain::is_block_indexed, from blockchain.rs. -/
def Blockchain.is_block_indexed (bc : Blockchain)
    (block_hash : SaitoHash) : Bool :=
  (alookup bc.blocks block_hash).isSome

/-- Blockchain::contains_block_hash_at_block_id, from blockchain.rs. -/
def Blockchain.contains_block_hash_at_block_id (bc : Blockchain)
    (block_id : Nat) (block_hash : SaitoHash) : Bool :=
  bc.blockring.contains_block_hash_at_block_id block_id block_hash

/-- The backward search loop of is_golden_ticket_count_valid, from
blockchain.rs.  remaining counts the loop iterations still to run, so the
first iteration (i = 0 in the source) is the one with
remaining = MIN_GOLDEN_TICKETS_DENOMINATOR; search_depth_index grows by
one per iteration before the block lookup. -/
def goldenTicketLoop (blocks : List (SaitoHash × Block)) :
    Nat → SaitoHash → Nat → Nat → Nat × Nat
  | 0, _, found, depth => (found, depth)
  | remaining + 1, h, found, depth =>
    let depth1 := depth + 1
    match alookup blocks h with
    | none => (found, depth1)
    | some b =>
      if remaining + 1 = MIN_GOLDEN_TICKETS_DENOMINATOR ∧
          b.id < MIN_GOLDEN_TICKETS_DENOMINATOR then
        (MIN_GOLDEN_TICKETS_DENOMINATOR, depth1)
      else
        goldenTicketLoop blocks remaining b.previous_block_hash
          (if b.has_golden_ticket then found + 1 else found) depth1

/-- Blockchain::is_golden_ticket_count_valid, from blockchain.rs. -/
def Blockchain.is_golden_ticket_count_valid (bc : Blockchain)
    (previous_block_hash : SaitoHash)
    (current_block_has_golden_ticket : Bool) : Bool :=
  let fd := goldenTicketLoop bc.blocks MIN_GOLDEN_TICKETS_DENOMINATOR
    previous_block_hash 0 0
  let found := fd.1
  let depth := fd.2
  let found1 :=
    if found < MIN_GOLDEN_TICKETS_NUMERATOR ∧
        depth ≥ MIN_GOLDEN_TICKETS_DENOMINATOR ∧
        current_block_has_golden_ticket
    then found + 1 else found
  if found1 < MIN_GOLDEN_TICKETS_NUMERATOR ∧
      depth ≥ MIN_GOLDEN_TICKETS_DENOMINATOR
  then false else true

/-- Burn-fee sum over the blocks named by a chain, used by both burn-fee
loops of is_new_chain_the_longest_chain (none when a hash is missing from
the block map; the two call sites handle that case differently, matching
the source). -/
def chainBurnfeeSum (blocks : List (SaitoHash × Block))
    (chain : List SaitoHash) : Option Currency :=
  chain.foldlM (fun acc h => (alookup blocks h).map
    (fun b => acc + b.burnfee)) 0

/-- Blockchain::is_new_chain_the_longest_chain, from blockchain.rs.
none models the panics (indexing an empty new_chain, or an old-chain hash
missing from the block map); a new-chain hash missing from the block map
returns false, as in the source. -/
def Blockchain.is_new_chain_the_longest_chain (bc : Blockchain)
    (new_chain old_chain : List SaitoHash) : Option Bool :=
  if bc.blockring.is_empty then some true
  else if old_chain.length > new_chain.length then some false
  else
    match new_chain.head? with
    | none => none
    | some nh =>
      match alookup bc.blocks nh with
      | none => none
      | some nb =>
        if bc.blockring.get_latest_block_id ≥ nb.id then some false
        else
          match chainBurnfeeSum bc.blocks old_chain with
          | none => none
          | some old_bf =>
            match chainBurnfeeSum bc.blocks new_chain with
            | none => some false
            | some new_bf =>
              some (decide (old_chain.length < new_chain.length) &&
                decide (old_bf ≤ new_bf))

/-- C2: chain selection.  With the head block of the candidate chain and
both burn-fee sums available, is_new_chain_the_longest_chain answers true
exactly when the candidate is strictly longer, carries at least as much
burn fee, and its tip id strictly exceeds the current latest id; an empty
BlockRing answers true unconditionally. -/
theorem C2_chain_selection (bc : Blockchain)
    (new_chain old_chain : List SaitoHash) (nh : SaitoHash) (nb : Block)
    (old_bf new_bf : Currency)
    (hhead : new_chain.head? = some nh)
    (hnb : alookup bc.blocks nh = some nb)
    (hold : chainBurnfeeSum bc.blocks old_chain = some old_bf)
    (hnew : chainBurnfeeSum bc.blocks new_chain = some new_bf) :
    bc.is_new_chain_the_longest_chain new_chain old_chain =
      some (if bc.blockring.is_empty then true
        else decide (new_chain.length > old_chain.length ∧
          new_bf ≥ old_bf ∧ nb.id > bc.blockring.get_latest_block_id)) := by
  unfold Blockchain.is_new_chain_the_longest_chain
  by_cases hempty : bc.blockring.is_empty
  · simp [hempty]
  · simp only [hempty, Bool.false_eq_true, if_false]
    rw [hhead]
    simp only [hnb, hold, hnew]
    by_cases hlen : old_chain.length > new_chain.length
    · rw [if_pos hlen]
      have : ¬ (new_chain.length > old_chain.length ∧ new_bf ≥ old_bf ∧
          nb.id > bc.blockring.get_latest_block_id) := by
        intro h; exact absurd h.1 (by omega)
      simp [this, hempty]
    · rw [if_neg hlen]
      by_cases hlat : bc.blockring.get_latest_block_id ≥ nb.id
      · rw [if_pos hlat]
        have : ¬ (new_chain.length > old_chain.length ∧ new_bf ≥ old_bf ∧
            nb.id > bc.blockring.get_latest_block_id) := by
          intro h; exact absurd h.2.2 (by omega)
        simp [this, hempty]
      · rw [if_neg hlat]
        have hc : nb.id > bc.blockring.get_latest_block_id := by omega
        congr 1
        by_cases ha : old_chain.length < new_chain.length <;>
          by_cases hb : old_bf ≤ new_bf <;>
            simp [ha, hb, hc, gt_iff_lt, ge_iff_le]

/-- Convenience block constructor for concrete witnesses. -/
def testBlock (id : Nat) (hash prev : SaitoHash) (burnfee : Currency)
    (gt : Bool) (lc : Bool) : Block :=
  { id := id
    hash := hash
    previous_block_hash := prev
    timestamp := 0
    burnfee := burnfee
    difficulty := 0
    has_golden_ticket := gt
    transactions := []
    creator := []
    in_longest_chain := lc
    block_type := BlockType.Full
    source_connection_id := none }

/-- Hash literal used by witnesses: 32 copies of the given byte. -/
def testHash (b : Nat) : SaitoHash := List.replicate 32 b

/-- Concrete blockchain used to witness C2: the ring selects a block of
id 1 while the candidate tip block has id 2 and burnfee 10. -/
def c2Blockchain : Blockchain :=
  { utxoset := fun _ => none
    blockring :=
      { ring := fun i => if i = 1 then ⟨[1], [testHash 1], some 0⟩
          else RingItem.new
        lc_pos := some 1
        empty := false }
    blocks := [(testHash 2, testBlock 2 (testHash 2) (testHash 1) 10
      false false)]
    wallet :=
      { public_key := []
        slips := fun _ => none
        unspent_slips := fun _ => false
        available_balance := 0 }
    genesis_block_id := 0
    fork_id := zeroHash }

/-- Witness for C2 at a concrete blockchain and chains. -/
theorem C2_chain_selection_witness :
    c2Blockchain.is_new_chain_the_longest_chain [testHash 2] [] =
      some true := by
  rw [C2_chain_selection c2Blockchain [testHash 2] [] (testHash 2)
    (testBlock 2 (testHash 2) (testHash 1) 10 false false) 0 10
    rfl (by decide) rfl (by decide)]
  decide

/-- Number of golden tickets among a list of blocks (specification side of
claim C5). -/
def goldenTicketSpecCount (bs : List Block) : Nat :=
  (bs.filter (fun b => b.has_golden_ticket)).length

theorem goldenTicketLoop_step (blocks : List (SaitoHash × Block)) (n : Nat)
    (h : SaitoHash) (found depth : Nat) :
    goldenTicketLoop blocks (n + 1) h found depth =
      match alookup blocks h with
      | none => (found, depth + 1)
      | some b =>
        if n + 1 = MIN_GOLDEN_TICKETS_DENOMINATOR ∧
            b.id < MIN_GOLDEN_TICKETS_DENOMINATOR then
          (MIN_GOLDEN_TICKETS_DENOMINATOR, depth + 1)
        else
          goldenTicketLoop blocks n b.previous_block_hash
            (if b.has_golden_ticket then found + 1 else found)
            (depth + 1) := rfl

theorem goldenTicketLoop_zero (blocks : List (SaitoHash × Block))
    (h : SaitoHash) (found depth : Nat) :
    goldenTicketLoop blocks 0 h found depth = (found, depth) := rfl

theorem goldenTicketLoop_step_some (blocks : List (SaitoHash × Block))
    (n : Nat) (h : SaitoHash) (found depth : Nat) (b : Block)
    (hb : alookup blocks h = some b) :
    goldenTicketLoop blocks (n + 1) h found depth =
      (if n + 1 = MIN_GOLDEN_TICKETS_DENOMINATOR ∧
          b.id < MIN_GOLDEN_TICKETS_DENOMINATOR then
        (MIN_GOLDEN_TICKETS_DENOMINATOR, depth + 1)
      else
        goldenTicketLoop blocks n b.previous_block_hash
          (if b.has_golden_ticket then found + 1 else found)
          (depth + 1)) := by
  rw [goldenTicketLoop_step, hb]

/-- C5: golden-ticket density.  When the six blocks terminating at the
parent hash are all present, the check passes exactly when the parent id
is below the denominator, or at least two of the six blocks carry golden
tickets after counting the candidate block's own ticket when fewer than
two were found. -/
theorem C5_golden_ticket_density (bc : Blockchain) (p : SaitoHash)
    (g : Bool) (b0 b1 b2 b3 b4 b5 : Block)
    (h0 : alookup bc.blocks p = some b0)
    (h1 : alookup bc.blocks b0.previous_block_hash = some b1)
    (h2 : alookup bc.blocks b1.previous_block_hash = some b2)
    (h3 : alookup bc.blocks b2.previous_block_hash = some b3)
    (h4 : alookup bc.blocks b3.previous_block_hash = some b4)
    (h5 : alookup bc.blocks b4.previous_block_hash = some b5) :
    bc.is_golden_ticket_count_valid p g =
      (decide (b0.id < MIN_GOLDEN_TICKETS_DENOMINATOR) ||
        decide (MIN_GOLDEN_TICKETS_NUMERATOR ≤
          goldenTicketSpecCount [b0, b1, b2, b3, b4, b5] +
            (if goldenTicketSpecCount [b0, b1, b2, b3, b4, b5] <
                MIN_GOLDEN_TICKETS_NUMERATOR ∧ g = true
             then 1 else 0))) := by
  rw [show MIN_GOLDEN_TICKETS_DENOMINATOR = (6 : Nat) from rfl,
    show MIN_GOLDEN_TICKETS_NUMERATOR = (2 : Nat) from rfl]
  by_cases hid : b0.id < 6
  · have hloop : goldenTicketLoop bc.blocks 6 p 0 0 = (6, 1) := by
      rw [show (6 : Nat) = 5 + 1 from rfl,
        goldenTicketLoop_step_some bc.blocks 5 p 0 0 b0 h0]
      rw [if_pos ⟨rfl, by
        rw [show MIN_GOLDEN_TICKETS_DENOMINATOR = (6 : Nat) from rfl]
        exact hid⟩]
      rfl
    simp only [Blockchain.is_golden_ticket_count_valid,
      show MIN_GOLDEN_TICKETS_DENOMINATOR = (6 : Nat) from rfl,
      show MIN_GOLDEN_TICKETS_NUMERATOR = (2 : Nat) from rfl, hloop]
    norm_num [hid]
  · have step0 : ∀ f d, goldenTicketLoop bc.blocks 6 p f d =
        goldenTicketLoop bc.blocks 5 b0.previous_block_hash
          (if b0.has_golden_ticket then f + 1 else f) (d + 1) := by
      intro f d
      rw [show (6 : Nat) = 5 + 1 from rfl,
        goldenTicketLoop_step_some bc.blocks 5 p f d b0 h0]
      rw [if_neg (fun hc => hid (by
        have := hc.2
        rwa [show MIN_GOLDEN_TICKETS_DENOMINATOR = (6 : Nat) from rfl]
          at this))]
    have step1 : ∀ f d, goldenTicketLoop bc.blocks 5
        b0.previous_block_hash f d =
        goldenTicketLoop bc.blocks 4 b1.previous_block_hash
          (if b1.has_golden_ticket then f + 1 else f) (d + 1) := by
      intro f d
      rw [show (5 : Nat) = 4 + 1 from rfl,
        goldenTicketLoop_step_some bc.blocks 4 _ f d b1 h1]
      rw [if_neg (fun hc => by
        have := hc.1
        rw [show MIN_GOLDEN_TICKETS_DENOMINATOR = (6 : Nat) from rfl]
          at this
        omega)]
    have step2 : ∀ f d, goldenTicketLoop bc.blocks 4
        b1.previous_block_hash f d =
        goldenTicketLoop bc.blocks 3 b2.previous_block_hash
          (if b2.has_golden_ticket then f + 1 else f) (d + 1) := by
      intro f d
      rw [show (4 : Nat) = 3 + 1 from rfl,
        goldenTicketLoop_step_some bc.blocks 3 _ f d b2 h2]
      rw [if_neg (fun hc => by
        have := hc.1
        rw [show MIN_GOLDEN_TICKETS_DENOMINATOR = (6 : Nat) from rfl]
          at this
        omega)]
    have step3 : ∀ f d, goldenTicketLoop bc.blocks 3
        b2.previous_block_hash f d =
        goldenTicketLoop bc.blocks 2 b3.previous_block_hash
          (if b3.has_golden_ticket then f + 1 else f) (d + 1) := by
      intro f d
      rw [show (3 : Nat) = 2 + 1 from rfl,
        goldenTicketLoop_step_some bc.blocks 2 _ f d b3 h3]
      rw [if_neg (fun hc => by
        have := hc.1
        rw [show MIN_GOLDEN_TICKETS_DENOMINATOR = (6 : Nat) from rfl]
          at this
        omega)]
    have step4 : ∀ f d, goldenTicketLoop bc.blocks 2
        b3.previous_block_hash f d =
        goldenTicketLoop bc.blocks 1 b4.previous_block_hash
          (if b4.has_golden_ticket then f + 1 else f) (d + 1) := by
      intro f d
      rw [show (2 : Nat) = 1 + 1 from rfl,
        goldenTicketLoop_step_some bc.blocks 1 _ f d b4 h4]
      rw [if_neg (fun hc => by
        have := hc.1
        rw [show MIN_GOLDEN_TICKETS_DENOMINATOR = (6 : Nat) from rfl]
          at this
        omega)]
    have step5 : ∀ f d, goldenTicketLoop bc.blocks 1
        b4.previous_block_hash f d =
        ((if b5.has_golden_ticket then f + 1 else f), d + 1) := by
      intro f d
      rw [show (1 : Nat) = 0 + 1 from rfl,
        goldenTicketLoop_step_some bc.blocks 0 _ f d b5 h5]
      rw [if_neg (fun hc => by
        have := hc.1
        rw [show MIN_GOLDEN_TICKETS_DENOMINATOR = (6 : Nat) from rfl]
          at this
        omega)]
      rw [goldenTicketLoop_zero]
    have hloop : goldenTicketLoop bc.blocks 6 p 0 0 =
        (goldenTicketSpecCount [b0, b1, b2, b3, b4, b5], 6) := by
      rw [step0, step1, step2, step3, step4, step5]
      simp only [goldenTicketSpecCount, List.filter]
      cases b0.has_golden_ticket <;> cases b1.has_golden_ticket <;>
        cases b2.has_golden_ticket <;> cases b3.has_golden_ticket <;>
          cases b4.has_golden_ticket <;> cases b5.has_golden_ticket <;>
            rfl
    simp only [Blockchain.is_golden_ticket_count_valid,
      show MIN_GOLDEN_TICKETS_DENOMINATOR = (6 : Nat) from rfl,
      show MIN_GOLDEN_TICKETS_NUMERATOR = (2 : Nat) from rfl, hloop]
    have hid2 : ¬ b0.id < 6 := hid
    by_cases hcnt : goldenTicketSpecCount [b0, b1, b2, b3, b4, b5] < 2
    · cases g
      · simp [hcnt, hid2]
      · simp only [hcnt, hid2]
        have hc01 : goldenTicketSpecCount [b0, b1, b2, b3, b4, b5] = 0 ∨
            goldenTicketSpecCount [b0, b1, b2, b3, b4, b5] = 1 := by omega
        rcases hc01 with hc0 | hc0 <;> simp [hc0, hcnt, hid2]
    · cases g
      · simp [hcnt, hid2]
        omega
      · simp [hcnt, hid2]
        omega

/-- Chain of six blocks (ids 10 down to 5, golden tickets on 9 and 8) used
to witness C5. -/
def c5Blocks : List (SaitoHash × Block) :=
  [(testHash 10, testBlock 10 (testHash 10) (testHash 9) 0 false false),
   (testHash 9, testBlock 9 (testHash 9) (testHash 8) 0 true false),
   (testHash 8, testBlock 8 (testHash 8) (testHash 7) 0 true false),
   (testHash 7, testBlock 7 (testHash 7) (testHash 6) 0 false false),
   (testHash 6, testBlock 6 (testHash 6) (testHash 5) 0 false false),
   (testHash 5, testBlock 5 (testHash 5) (testHash 4) 0 false false)]

/-- Concrete blockchain used to witness C5. -/
def c5Blockchain : Blockchain :=
  { utxoset := fun _ => none
    blockring := BlockRing.new
    blocks := c5Blocks
    wallet :=
      { public_key := []
        slips := fun _ => none
        unspent_slips := fun _ => false
        available_balance := 0 }
    genesis_block_id := 0
    fork_id := zeroHash }

/-- Witness for C5 at a concrete six-block chain with two golden
tickets. -/
theorem C5_golden_ticket_density_witness :
    c5Blockchain.is_golden_ticket_count_valid (testHash 10) false =
      true :=
  (C5_golden_ticket_density c5Blockchain (testHash 10) false
    (testBlock 10 (testHash 10) (testHash 9) 0 false false)
    (testBlock 9 (testHash 9) (testHash 8) 0 true false)
    (testBlock 8 (testHash 8) (testHash 7) 0 true false)
    (testBlock 7 (testHash 7) (testHash 6) 0 false false)
    (testBlock 6 (testHash 6) (testHash 5) 0 false false)
    (testBlock 5 (testHash 5) (testHash 4) 0 false false)
    (by decide) (by decide) (by decide) (by decide) (by decide)
    (by decide)).trans (by decide)

/-- Mempool::can_bundle_block, from mempool.rs.  The work_needed argument
stands for BurnFee::return_routing_work_needed_to_produce_block_in_nolan:
burnfee.rs is not among the provided sources, and the specification
(section 4.3) fixes only its signature and monotonicity, so the function
is taken as a parameter. -/
def Mempool.can_bundle_block
    (work_needed : Currency → Nat → Nat → Currency) (m : Mempool)
    (bc : Blockchain) (current_timestamp : Nat)
    (gt_tx : Option Transaction) : Option Currency :=
  if bc.blocks.isEmpty then none
  else if ¬ m.blocks_queue.isEmpty then none
  else if m.transactions.isEmpty ∨ ¬ m.new_tx_added then none
  else if ¬ bc.is_golden_ticket_count_valid bc.get_latest_block_hash
      gt_tx.isSome then none
  else
    match bc.get_latest_block with
    | some previous_block =>
      let work_available := m.get_routing_work_available
      let work_needed_val := work_needed previous_block.burnfee
        current_timestamp previous_block.timestamp
      if work_available ≥ work_needed_val then some work_available
      else none
    | none => some 0

/-- C6: the block bundling gate.  With the tip block available from the
block map, can_bundle_block answers Some(routing work) exactly when the
blockchain is non-empty, the inbound block queue is empty, the
transaction map is non-empty with new_tx_added set, the golden-ticket
density check passes at the tip, and the routing work in the mempool
covers the burn-fee work needed; in every other case it answers None. -/
theorem C6_can_bundle_block (work_needed : Currency → Nat → Nat → Currency)
    (m : Mempool) (bc : Blockchain) (current_timestamp : Nat)
    (gt_tx : Option Transaction) (tip : Block)
    (htip : bc.get_latest_block = some tip) :
    Mempool.can_bundle_block work_needed m bc current_timestamp gt_tx =
      if ¬ bc.blocks.isEmpty ∧ m.blocks_queue.isEmpty ∧
          ¬ m.transactions.isEmpty ∧ m.new_tx_added ∧
          bc.is_golden_ticket_count_valid bc.get_latest_block_hash
            gt_tx.isSome ∧
          m.routing_work_in_mempool ≥
            work_needed tip.burnfee current_timestamp tip.timestamp
      then some m.routing_work_in_mempool else none := by
  have hne : ¬ bc.blocks.isEmpty := by
    intro hempty
    rw [Blockchain.get_latest_block,
      show bc.blocks = [] from List.isEmpty_iff.mp hempty] at htip
    exact Option.noConfusion htip
  unfold Mempool.can_bundle_block
  rw [if_neg (by simpa using hne), htip]
  dsimp only
  by_cases hq : m.blocks_queue.isEmpty
  · rw [if_neg (by simpa using hq)]
    by_cases htx : m.transactions.isEmpty ∨ ¬ m.new_tx_added
    · rw [if_pos htx]
      rw [if_neg (by
        rcases htx with h | h
        · intro hc
          exact absurd h (by simpa using hc.2.2.1)
        · intro hc
          exact h hc.2.2.2.1)]
    · rw [if_neg htx]
      push_neg at htx
      by_cases hgt : bc.is_golden_ticket_count_valid
          bc.get_latest_block_hash gt_tx.isSome
      · rw [if_neg (by simpa using hgt)]
        by_cases hwork : m.get_routing_work_available ≥
            work_needed tip.burnfee current_timestamp tip.timestamp
        · rw [if_pos hwork,
            if_pos ⟨hne, hq, htx.1, htx.2, hgt, hwork⟩]
          rfl
        · rw [if_neg hwork,
            if_neg (fun hc => hwork hc.2.2.2.2.2)]
      · rw [if_pos (by simpa using hgt),
          if_neg (fun hc => hgt hc.2.2.2.2.1)]
  · rw [if_pos (by simpa using hq),
      if_neg (fun hc => hq hc.2.1)]

/-- Tip block used to witness C6. -/
def c6Tip : Block := testBlock 1 (testHash 1) zeroHash 0 false true

/-- Concrete blockchain used to witness C6. -/
def c6Blockchain : Blockchain :=
  { utxoset := fun _ => none
    blockring :=
      { ring := fun i => if i = 1 then ⟨[1], [testHash 1], some 0⟩
          else RingItem.new
        lc_pos := some 1
        empty := false }
    blocks := [(testHash 1, c6Tip)]
    wallet :=
      { public_key := []
        slips := fun _ => none
        unspent_slips := fun _ => false
        available_balance := 0 }
    genesis_block_id := 0
    fork_id := zeroHash }

/-- Concrete mempool used to witness C6. -/
def c6Mempool : Mempool :=
  { blocks_queue := []
    transactions := [(c10Tx.signature, c10Tx)]
    golden_tickets := fun _ => none
    routing_work_in_mempool := 7
    new_tx_added := true
    public_key := [] }

/-- Witness for C6 at a concrete blockchain and mempool where every gate
condition holds. -/
theorem C6_can_bundle_block_witness :
    Mempool.can_bundle_block (fun _ _ _ => 0) c6Mempool c6Blockchain 100
      none = some 7 := by
  rw [C6_can_bundle_block (fun _ _ _ => 0) c6Mempool c6Blockchain 100
    none c6Tip (by decide)]
  decide

/-! ## Fork id (blockchain.rs, generate_fork_id) -/

/-- Wrap modulus of u64 arithmetic. -/
def U64 : Nat := 2 ^ 64

/-- Per-iteration decrements of the generate_fork_id loop, from
blockchain.rs (the subtraction applied at i = 0, 1, ..., 15). -/
def forkIdWeights : List Nat :=
  [0, 10, 10, 10, 10, 10, 25, 25, 100, 300, 500, 4000, 10000, 20000,
   50000, 100000]

/-- Cumulative sampling offsets named by the specification (4.5.6). -/
def forkIdClaimOffsets : List Nat :=
  [0, 10, 20, 30, 40, 50, 75, 100, 200, 500, 1000, 5000, 15000, 35000,
   85000, 185000]

/-- The specification offsets are exactly the partial sums of the loop
decrements. -/
theorem forkIdWeights_partial_sums :
    (forkIdWeights.scanl (fun a b => a + b) 0).tail = forkIdClaimOffsets :=
  by decide

/-- The loop of generate_fork_id, from blockchain.rs: iterate over the
indexed decrements, subtract with u64 wrapping, stop as soon as the
running id exceeds block_id (which is how a wrapped subtraction
manifests) or reaches 0, and otherwise copy two bytes of the
longest-chain hash at the running id into the fork id. -/
def forkIdLoop (br : BlockRing) (block_id : Nat) :
    List (Nat × Nat) → Nat → List Nat → List Nat
  | [], _, fid => fid
  | (i, w) :: rest, cur, fid =>
    let cur1 := (cur + (U64 - w)) % U64
    if cur1 > block_id ∨ cur1 = 0 then fid
    else
      let index := 2 * i
      let bh := br.get_longest_chain_block_hash_by_block_id cur1
      let fid1 := (fid.set index (bh.getD index 0)).set (index + 1)
        (bh.getD (index + 1) 0)
      forkIdLoop br block_id rest cur1 fid1

/-- Blockchain::generate_fork_id, from blockchain.rs.  The initial
rounding loop of the source computes block_id - (block_id % 10), as its
own comment records. -/
def Blockchain.generate_fork_id (bc : Blockchain) (block_id : Nat) :
    SaitoHash :=
  forkIdLoop bc.blockring block_id forkIdWeights.enum
    (block_id - block_id % 10) zeroHash

/-- Sampling loop following the words of claim C7, carried out in exact
integer arithmetic: the running height after processing the first k
decrements is the origin minus the k-th cumulative offset (see
forkIdWeights_partial_sums).  Height 0 counts as a valid sample, which is
the literal reading of the claim. -/
def forkIdSpecLoopClaim (br : BlockRing) (block_id : Nat) :
    List (Nat × Nat) → Int → List Nat → List Nat
  | [], _, fid => fid
  | (i, w) :: rest, cur, fid =>
    forkIdSpecLoopClaim br block_id rest (cur - w)
      (if 0 ≤ cur - (w : Int) ∧ cur - (w : Int) ≤ (block_id : Int) then
        ((fid.set (2 * i)
          ((br.get_longest_chain_block_hash_by_block_id
            (cur - (w : Int)).toNat).getD (2 * i) 0)).set (2 * i + 1)
          ((br.get_longest_chain_block_hash_by_block_id
            (cur - (w : Int)).toNat).getD (2 * i + 1) 0))
      else fid)

/-- Sampling loop of the amended claim: identical to
forkIdSpecLoopClaim except that only strictly positive sampled heights
contribute. -/
def forkIdSpecLoopAmended (br : BlockRing) (block_id : Nat) :
    List (Nat × Nat) → Int → List Nat → List Nat
  | [], _, fid => fid
  | (i, w) :: rest, cur, fid =>
    forkIdSpecLoopAmended br block_id rest (cur - w)
      (if 0 < cur - (w : Int) ∧ cur - (w : Int) ≤ (block_id : Int) then
        ((fid.set (2 * i)
          ((br.get_longest_chain_block_hash_by_block_id
            (cur - (w : Int)).toNat).getD (2 * i) 0)).set (2 * i + 1)
          ((br.get_longest_chain_block_hash_by_block_id
            (cur - (w : Int)).toNat).getD (2 * i + 1) 0))
      else fid)

/-- Fork id as described by claim C7 word for word: every sampled height
that does not underflow 0 (height 0 included) and does not exceed the
input height contributes two bytes. -/
def forkIdSpecClaim (br : BlockRing) (block_id : Nat) : SaitoHash :=
  forkIdSpecLoopClaim br block_id forkIdWeights.enum
    ((block_id : Int) - (block_id % 10 : Nat)) zeroHash

/-- Fork id as described by the amended claim: only strictly positive
sampled heights contribute (the source loop stops when the running height
reaches 0). -/
def forkIdSpecAmended (br : BlockRing) (block_id : Nat) : SaitoHash :=
  forkIdSpecLoopAmended br block_id forkIdWeights.enum
    ((block_id : Int) - (block_id % 10 : Nat)) zeroHash

/-- BlockRing whose slot 0 selects a hash with nonzero bytes, used to
refute claim C7 at height 10. -/
def c7Blockchain : Blockchain :=
  { utxoset := fun _ => none
    blockring :=
      { ring := fun i => if i = 0 then ⟨[0], [testHash 1], some 0⟩
          else RingItem.new
        lc_pos := none
        empty := false }
    blocks := []
    wallet :=
      { public_key := []
        slips := fun _ => none
        unspent_slips := fun _ => false
        available_balance := 0 }
    genesis_block_id := 0
    fork_id := zeroHash }

/-- C7 counterexample: at height 10 the source loop stops on reaching
height 0 and leaves bytes 2 and 3 of the fork id zero, while the claim
samples height 0 and would copy the nonzero bytes of the slot-0 hash
there; the claim as stated is therefore false on this state. -/
theorem C7_fork_id_counterexample :
    c7Blockchain.generate_fork_id 10 ≠
      forkIdSpecClaim c7Blockchain.blockring 10 ∧
      (c7Blockchain.generate_fork_id 10).getD 2 0 = 0 ∧
      (forkIdSpecClaim c7Blockchain.blockring 10).getD 2 0 = 1 := by
  refine ⟨?_, by decide, by decide⟩
  decide

/-- Total weight of the remaining loop decrements. -/
def sumWeights (ws : List (Nat × Nat)) : Nat :=
  (ws.map (fun p => p.2)).sum

theorem forkIdSpecLoopAmended_dead (br : BlockRing) (bid : Nat) :
    ∀ (ws : List (Nat × Nat)) (cur : Int) (fid : List Nat), cur ≤ 0 →
      forkIdSpecLoopAmended br bid ws cur fid = fid := by
  intro ws
  induction ws with
  | nil => intro cur fid _; rfl
  | cons p rest ih =>
    intro cur fid hcur
    rcases p with ⟨i, w⟩
    rw [forkIdSpecLoopAmended]
    rw [if_neg (by
      intro hc
      have h1 : (0 : Int) < cur - w := hc.1
      have h2 : (w : Int) ≥ 0 := Int.ofNat_nonneg w
      omega)]
    exact ih (cur - w) fid (by
      have : (w : Int) ≥ 0 := Int.ofNat_nonneg w
      omega)

theorem forkIdLoop_eq_spec (br : BlockRing) (bid : Nat)
    (hbid : bid < U64) :
    ∀ (ws : List (Nat × Nat)) (cur : Int) (fid : List Nat),
      1 ≤ cur → cur ≤ (bid : Int) →
      (∀ p ∈ ws, p.2 ≤ 100000) →
      (bid : Int) - 185009 ≤ cur - (sumWeights ws : Int) →
      forkIdLoop br bid ws cur.toNat fid =
        forkIdSpecLoopAmended br bid ws cur fid := by
  intro ws
  induction ws with
  | nil => intro cur fid _ _ _ _; rfl
  | cons p rest ih =>
    intro cur fid h1 h2 hwts hsum
    rcases p with ⟨i, w⟩
    have hw : w ≤ 100000 := hwts (i, w) (List.mem_cons_self _ _)
    have hwrest : ∀ q ∈ rest, q.2 ≤ 100000 :=
      fun q hq => hwts q (List.mem_cons_of_mem _ hq)
    have hsumc : (sumWeights ((i, w) :: rest) : Int) =
        (w : Int) + (sumWeights rest : Int) := by
      simp [sumWeights]
    have hUval : U64 = 18446744073709551616 := by norm_num [U64]
    have hcurN : ((cur.toNat : Int)) = cur := Int.toNat_of_nonneg (by omega)
    have hbid2 : bid < 18446744073709551616 := by
      rw [hUval] at hbid
      exact hbid
    have hsrest : (0 : Int) ≤ (sumWeights rest : Int) :=
      Int.ofNat_nonneg _
    rw [forkIdLoop, forkIdSpecLoopAmended]
    by_cases hwc : (w : Int) < cur
    · have hstep : (cur.toNat + (U64 - w)) % U64 = (cur - (w : Int)).toNat := by
        rw [hUval]
        omega
      rw [hstep]
      rw [if_neg (by
        intro hc
        rcases hc with hgt | hz
        · have he : ((cur - (w : Int)).toNat : Int) = cur - w := by omega
          omega
        · omega)]
      rw [if_pos (⟨by omega, by omega⟩ :
        0 < cur - (w : Int) ∧ cur - (w : Int) ≤ (bid : Int))]
      exact ih (cur - w) _ (by omega) (by omega) hwrest (by
        rw [hsumc] at hsum
        omega)
    · have hbreak : (cur.toNat + (U64 - w)) % U64 > bid ∨
          (cur.toNat + (U64 - w)) % U64 = 0 := by
        rw [hUval]
        rcases Nat.eq_or_lt_of_le (show cur.toNat ≤ w by omega) with
          he | hlt
        · right
          omega
        · left
          have hbidsmall : bid ≤ 185008 := by
            rw [hsumc] at hsum
            omega
          omega
      rw [if_pos hbreak]
      rw [if_neg (by
        intro hc
        have h3 : (0 : Int) < cur - w := hc.1
        omega)]
      exact (forkIdSpecLoopAmended_dead br bid rest (cur - w) fid
        (by omega)).symm

/-- C7 amended: generate_fork_id rounds the height down to a multiple of
10, samples the 16 cumulative offsets and copies two hash bytes for every
strictly positive sampled height not exceeding the input height, leaving
all other bytes zero; for heights below 10 the result is the all-zero
hash. -/
theorem C7_fork_id_amended (bc : Blockchain) (block_id : Nat)
    (hbid : block_id < U64) :
    bc.generate_fork_id block_id =
        forkIdSpecAmended bc.blockring block_id ∧
      (block_id < 10 → bc.generate_fork_id block_id = zeroHash) := by
  have henum : forkIdWeights.enum =
      [(0, 0), (1, 10), (2, 10), (3, 10), (4, 10), (5, 10), (6, 25),
       (7, 25), (8, 100), (9, 300), (10, 500), (11, 4000), (12, 10000),
       (13, 20000), (14, 50000), (15, 100000)] := by decide
  by_cases hsmall : block_id < 10
  · have hmod : block_id % 10 = block_id := Nat.mod_eq_of_lt hsmall
    have horigin : block_id - block_id % 10 = 0 := by omega
    have hcode : bc.generate_fork_id block_id = zeroHash := by
      rw [Blockchain.generate_fork_id, horigin, henum, forkIdLoop]
      rw [if_pos (Or.inr (by norm_num [U64]))]
    have hspec : forkIdSpecAmended bc.blockring block_id = zeroHash := by
      rw [forkIdSpecAmended]
      exact forkIdSpecLoopAmended_dead bc.blockring block_id _ _ _ (by
        rw [hmod]
        omega)
    exact ⟨hcode.trans hspec.symm, fun _ => hcode⟩
  · have h10 : 10 ≤ block_id := by omega
    have hmodle : block_id % 10 ≤ 9 := by omega
    have horigin_eq : (((block_id - block_id % 10 : Nat)) : Int) =
        (block_id : Int) - (block_id % 10 : Nat) := by
      have : block_id % 10 ≤ block_id := Nat.mod_le _ _
      omega
    have hsum : sumWeights forkIdWeights.enum = 185000 := by decide
    have hw : ∀ p ∈ forkIdWeights.enum, p.2 ≤ 100000 := by decide
    have heq := forkIdLoop_eq_spec bc.blockring block_id hbid
      forkIdWeights.enum
      ((block_id : Int) - (block_id % 10 : Nat)) zeroHash
      (by omega) (by omega) hw (by
        rw [hsum]
        omega)
    have htonat : ((block_id : Int) - (block_id % 10 : Nat)).toNat =
        block_id - block_id % 10 := by omega
    rw [htonat] at heq
    refine ⟨?_, fun hlt => absurd hlt (by omega)⟩
    rw [Blockchain.generate_fork_id, forkIdSpecAmended]
    exact heq

/-- Witness for the amended C7 theorem at a concrete state and height. -/
theorem C7_fork_id_amended_witness :
    c7Blockchain.generate_fork_id 15 =
        forkIdSpecAmended c7Blockchain.blockring 15 ∧
      (15 < 10 → c7Blockchain.generate_fork_id 15 = zeroHash) :=
  C7_fork_id_amended c7Blockchain 15 (by norm_num [U64])

/-! ## C8: wallet mirror round trip -/

/-- Public key of the wallet used in the C8 counterexample. -/
def c8Pk : List Nat := List.replicate 33 1

/-- Input slip spent by the C8 counterexample block: it references a UTXO
created in block 5. -/
def c8Slip : Slip :=
  { public_key := c8Pk
    amount := 4
    block_id := 5
    tx_ordinal := 0
    slip_index := 0 }

/-- Key of the C8 counterexample slip. -/
def c8Key : UtxoKey := c8Slip.get_utxoset_key

/-- Wallet entry tracked before the C8 round trip: provenance block 5. -/
def c8SlipBefore : WalletSlip :=
  { utxokey := c8Key
    amount := 4
    block_id := 5
    tx_ordinal := 0
    lc := true
    slip_index := 0
    spent := false }

/-- Wallet entry after the C8 round trip: re-added with the spending
block's id 9 as provenance. -/
def c8SlipAfter : WalletSlip :=
  { utxokey := c8Key
    amount := 4
    block_id := 9
    tx_ordinal := 0
    lc := true
    slip_index := 0
    spent := false }

/-- Wallet used in the C8 counterexample. -/
def c8Wallet : Wallet :=
  { public_key := c8Pk
    slips := fun k => if k = c8Key then some c8SlipBefore else none
    unspent_slips := fun k => k = c8Key
    available_balance := 4 }

/-- Block of id 9 whose only transaction spends the tracked slip. -/
def c8Block : Block :=
  { id := 9
    hash := testHash 9
    previous_block_hash := testHash 8
    timestamp := 0
    burnfee := 0
    difficulty := 0
    has_golden_ticket := false
    transactions :=
      [{ signature := List.replicate 64 1
         transaction_type := TransactionType.Normal
         inputs := [c8Slip]
         outputs := []
         total_fees := 0
         total_work_for_me := 0
         hash_for_signature := some (testHash 7)
         message := [] }]
    creator := c8Pk
    in_longest_chain := true
    block_type := BlockType.Full
    source_connection_id := none }

/-- C8 counterexample: winding then unwinding the block re-adds the spent
slip with the spending block's id and transaction ordinal, so the slips
map differs from its state before the first call (entry block_id 9 in
place of 5); the round trip is not the identity claimed. -/
theorem C8_wallet_roundtrip_counterexample :
    ((c8Wallet.on_chain_reorganization c8Block true).bind
        (fun w1 => w1.on_chain_reorganization c8Block false)).map
      (fun w2 => w2.slips c8Key) = some (some c8SlipAfter) ∧
      c8Wallet.slips c8Key = some c8SlipBefore ∧
      c8SlipAfter ≠ c8SlipBefore ∧
      c8SlipAfter.block_id = 9 ∧ c8SlipBefore.block_id = 5 := by
  refine ⟨?_, by decide, by decide, by decide, by decide⟩
  decide

/-- Wallet entry created by add_slip for slip s of transaction i of block
b (the shape used by both the winding and the unwinding call, which pass
lc = true). -/
def windEntry (b : Block) (i : Nat) (s : Slip) : WalletSlip :=
  { utxokey := s.get_utxoset_key
    amount := s.amount
    slip_index := s.slip_index
    block_id := b.id
    tx_ordinal := i
    lc := true
    spent := false }

theorem delete_slip_public_key (w : Wallet) (s : Slip) :
    (w.delete_slip s).public_key = w.public_key := by
  simp only [Wallet.delete_slip]
  cases h : w.slips s.utxoset_key
  · rfl
  · dsimp only
    split <;> rfl

theorem delete_slip_slips (w : Wallet) (s : Slip) (k : UtxoKey) :
    (w.delete_slip s).slips k =
      if k = s.utxoset_key then none else w.slips k := by
  simp only [Wallet.delete_slip]
  cases h : w.slips s.utxoset_key
  · rfl
  · dsimp only
    split <;> rfl

theorem delete_slip_unspent (w : Wallet) (s : Slip) (k : UtxoKey) :
    (w.delete_slip s).unspent_slips k =
      if k = s.utxoset_key then false else w.unspent_slips k := by
  simp only [Wallet.delete_slip]
  cases h : w.slips s.utxoset_key
  · rfl
  · dsimp only
    split <;> rfl

theorem delete_slip_balance (w : Wallet) (s : Slip) :
    (w.delete_slip s).available_balance =
      (match w.slips s.utxoset_key with
       | some removed =>
         if w.unspent_slips s.utxoset_key then
           w.available_balance - removed.amount
         else w.available_balance
       | none => w.available_balance) := by
  simp only [Wallet.delete_slip]
  cases h : w.slips s.utxoset_key
  · rfl
  · dsimp only
    split <;> rfl

theorem add_slip_eq (w : Wallet) (b : Block) (i : Nat) (s : Slip)
    (hid : b.id ≠ 0) :
    w.add_slip b i s true = some
      { public_key := w.public_key
        slips := fun k => if k = s.get_utxoset_key
          then some (windEntry b i s) else w.slips k
        unspent_slips := fun k => if k = s.get_utxoset_key
          then true else w.unspent_slips k
        available_balance := w.available_balance + s.amount } := by
  unfold Wallet.add_slip windEntry
  rw [if_neg hid]

/-- Slips of a list owned by the given public key with positive amount
(the slips wallet reorganization acts on). -/
def ownedFilter (pk : List Nat) (xs : List Slip) : List Slip :=
  xs.filter (fun s => decide (s.amount > 0 ∧ s.public_key = pk))

/-- Keys of a slip list. -/
def slipKeys (xs : List Slip) : List UtxoKey :=
  xs.map Slip.get_utxoset_key

/-- Total amount of a slip list, in exact integers. -/
def slipAmountSum (xs : List Slip) : Int :=
  (xs.map (fun s => (s.amount : Int))).sum

/-- The input loop of Wallet::windTx and the output loop of
Wallet::unwindTx: delete every owned positive slip. -/
def deleteLoop (w : Wallet) (xs : List Slip) : Wallet :=
  xs.foldl (fun acc inp =>
    if inp.amount > 0 ∧ inp.public_key = acc.public_key
    then acc.delete_slip inp else acc) w

/-- The output loop of Wallet::windTx and the input loop of
Wallet::unwindTx: add every owned positive slip. -/
def addLoop (b : Block) (i : Nat) (w : Wallet) (xs : List Slip) :
    Option Wallet :=
  xs.foldlM (fun acc out =>
    if out.amount > 0 ∧ out.public_key = acc.public_key
    then acc.add_slip b i out true else some acc) w

theorem windTx_eq_loops (w : Wallet) (b : Block) (i : Nat)
    (tx : Transaction) :
    w.windTx b i tx = addLoop b i (deleteLoop w tx.inputs) tx.outputs :=
  rfl

theorem unwindTx_eq_loops (w : Wallet) (b : Block) (i : Nat)
    (tx : Transaction) :
    w.unwindTx b i tx = (addLoop b i w tx.inputs).map
      (fun w1 => deleteLoop w1 tx.outputs) := by
  unfold Wallet.unwindTx addLoop deleteLoop
  cases List.foldlM (fun acc inp =>
      if inp.amount > 0 ∧ inp.public_key = acc.public_key
      then acc.add_slip b i inp true else some acc) w tx.inputs <;> rfl

theorem deleteLoop_char :
    ∀ (xs : List Slip) (w : Wallet) (pk : List Nat),
      w.public_key = pk →
      (slipKeys (ownedFilter pk xs)).Nodup →
      (∀ s ∈ ownedFilter pk xs, ∃ e,
        w.slips s.get_utxoset_key = some e ∧ e.amount = s.amount ∧
        w.unspent_slips s.get_utxoset_key = true) →
      (deleteLoop w xs).public_key = pk ∧
      (deleteLoop w xs).available_balance =
        w.available_balance - slipAmountSum (ownedFilter pk xs) ∧
      (∀ k, k ∉ slipKeys (ownedFilter pk xs) →
        (deleteLoop w xs).slips k = w.slips k ∧
        (deleteLoop w xs).unspent_slips k = w.unspent_slips k) ∧
      (∀ s ∈ ownedFilter pk xs,
        (deleteLoop w xs).slips s.get_utxoset_key = none ∧
        (deleteLoop w xs).unspent_slips s.get_utxoset_key = false) := by
  intro xs
  induction xs with
  | nil =>
    intro w pk hpk _ _
    refine ⟨hpk, by simp [deleteLoop, ownedFilter, slipAmountSum], ?_, ?_⟩
    · intro k _
      exact ⟨rfl, rfl⟩
    · intro s hs
      simp [ownedFilter] at hs
  | cons s rest ih =>
    intro w pk hpk hnodup hin
    by_cases howned : s.amount > 0 ∧ s.public_key = pk
    · have hfil : ownedFilter pk (s :: rest) = s :: ownedFilter pk rest :=
        by simp [ownedFilter, List.filter, howned]
      rw [hfil] at hnodup hin ⊢
      have hkey_notin : s.get_utxoset_key ∉ slipKeys (ownedFilter pk rest) := by
        have := hnodup
        rw [show slipKeys (s :: ownedFilter pk rest)
            = s.get_utxoset_key :: slipKeys (ownedFilter pk rest) from rfl]
          at this
        exact (List.nodup_cons.mp this).1
      have hnodup_rest : (slipKeys (ownedFilter pk rest)).Nodup := by
        have := hnodup
        rw [show slipKeys (s :: ownedFilter pk rest)
            = s.get_utxoset_key :: slipKeys (ownedFilter pk rest) from rfl]
          at this
        exact (List.nodup_cons.mp this).2
      obtain ⟨e, he, heamt, heun⟩ := hin s (List.mem_cons_self _ _)
      have hstepcond : (s.amount > 0 ∧ s.public_key = w.public_key) := by
        rw [hpk]; exact howned
      have hloop : deleteLoop w (s :: rest) =
          deleteLoop (w.delete_slip s) rest := by
        simp [deleteLoop, hstepcond]
      rw [hloop]
      set w1 := w.delete_slip s with hw1
      have hw1pk : w1.public_key = pk := by
        rw [hw1, delete_slip_public_key, hpk]
      have hw1slips : ∀ k, w1.slips k =
          if k = s.get_utxoset_key then none else w.slips k := by
        intro k
        rw [hw1, delete_slip_slips]
        rfl
      have hw1un : ∀ k, w1.unspent_slips k =
          if k = s.get_utxoset_key then false else w.unspent_slips k := by
        intro k
        rw [hw1, delete_slip_unspent]
        rfl
      have hw1bal : w1.available_balance =
          w.available_balance - s.amount := by
        rw [hw1, delete_slip_balance]
        rw [show s.utxoset_key = s.get_utxoset_key from rfl, he]
        rw [heun]
        simp [heamt]
      have hin_rest : ∀ t ∈ ownedFilter pk rest, ∃ e2,
          w1.slips t.get_utxoset_key = some e2 ∧ e2.amount = t.amount ∧
          w1.unspent_slips t.get_utxoset_key = true := by
        intro t ht
        obtain ⟨e2, he2, he2amt, he2un⟩ :=
          hin t (List.mem_cons_of_mem _ ht)
        have hne : t.get_utxoset_key ≠ s.get_utxoset_key := by
          intro hcontra
          exact hkey_notin (hcontra ▸ List.mem_map_of_mem
            Slip.get_utxoset_key ht)
        refine ⟨e2, ?_, he2amt, ?_⟩
        · rw [hw1slips, if_neg hne, he2]
        · rw [hw1un, if_neg hne, he2un]
      obtain ⟨ihpk, ihbal, ihout, ihdel⟩ :=
        ih w1 pk hw1pk hnodup_rest hin_rest
      refine ⟨ihpk, ?_, ?_, ?_⟩
      · rw [ihbal, hw1bal]
        rw [show slipAmountSum (s :: ownedFilter pk rest)
            = (s.amount : Int) + slipAmountSum (ownedFilter pk rest) by
          simp [slipAmountSum]]
        ring
      · intro k hk
        have hk1 : k ≠ s.get_utxoset_key := by
          intro hcontra
          exact hk (hcontra ▸ List.mem_cons_self _ _)
        have hk2 : k ∉ slipKeys (ownedFilter pk rest) := by
          intro hcontra
          exact hk (List.mem_cons_of_mem _ hcontra)
        obtain ⟨hs1, hs2⟩ := ihout k hk2
        constructor
        · rw [hs1, hw1slips, if_neg hk1]
        · rw [hs2, hw1un, if_neg hk1]
      · intro t ht
        rcases List.mem_cons.mp ht with heq | hmem
        · subst heq
          obtain ⟨hs1, hs2⟩ := ihout t.get_utxoset_key hkey_notin
          constructor
          · rw [hs1, hw1slips, if_pos rfl]
          · rw [hs2, hw1un, if_pos rfl]
        · exact ihdel t hmem
    · have hfil : ownedFilter pk (s :: rest) = ownedFilter pk rest := by
        simp [ownedFilter, List.filter, howned]
      rw [hfil] at hnodup hin ⊢
      have hstepcond : ¬ (s.amount > 0 ∧ s.public_key = w.public_key) := by
        rw [hpk]; exact howned
      have hloop : deleteLoop w (s :: rest) = deleteLoop w rest := by
        simp [deleteLoop, hstepcond]
      rw [hloop]
      exact ih w pk hpk hnodup hin

theorem addLoop_char :
    ∀ (xs : List Slip) (w : Wallet) (pk : List Nat) (b : Block) (i : Nat),
      w.public_key = pk → b.id ≠ 0 →
      (slipKeys (ownedFilter pk xs)).Nodup →
      ∃ w2, addLoop b i w xs = some w2 ∧
        w2.public_key = pk ∧
        w2.available_balance =
          w.available_balance + slipAmountSum (ownedFilter pk xs) ∧
        (∀ k, k ∉ slipKeys (ownedFilter pk xs) →
          w2.slips k = w.slips k ∧
          w2.unspent_slips k = w.unspent_slips k) ∧
        (∀ s ∈ ownedFilter pk xs,
          w2.slips s.get_utxoset_key = some (windEntry b i s) ∧
          w2.unspent_slips s.get_utxoset_key = true) := by
  intro xs
  induction xs with
  | nil =>
    intro w pk b i hpk _ _
    refine ⟨w, rfl, hpk, by simp [ownedFilter, slipAmountSum], ?_, ?_⟩
    · intro k _
      exact ⟨rfl, rfl⟩
    · intro s hs
      simp [ownedFilter] at hs
  | cons s rest ih =>
    intro w pk b i hpk hid hnodup
    by_cases howned : s.amount > 0 ∧ s.public_key = pk
    · have hfil : ownedFilter pk (s :: rest) = s :: ownedFilter pk rest :=
        by simp [ownedFilter, List.filter, howned]
      rw [hfil] at hnodup ⊢
      have hkey_notin : s.get_utxoset_key ∉
          slipKeys (ownedFilter pk rest) :=
        (List.nodup_cons.mp hnodup).1
      have hnodup_rest : (slipKeys (ownedFilter pk rest)).Nodup :=
        (List.nodup_cons.mp hnodup).2
      have hstepcond : (s.amount > 0 ∧ s.public_key = w.public_key) := by
        rw [hpk]; exact howned
      have hadd := add_slip_eq w b i s hid
      set w1 : Wallet :=
        { public_key := w.public_key
          slips := fun k => if k = s.get_utxoset_key
            then some (windEntry b i s) else w.slips k
          unspent_slips := fun k => if k = s.get_utxoset_key
            then true else w.unspent_slips k
          available_balance := w.available_balance + s.amount } with hw1
      have hloop : addLoop b i w (s :: rest) = addLoop b i w1 rest := by
        simp only [addLoop, List.foldlM]
        rw [if_pos hstepcond, hadd]
        rfl
      rw [hloop]
      obtain ⟨w2, hw2, ihpk, ihbal, ihout, ihadd⟩ :=
        ih w1 pk b i (by rw [hw1]; exact hpk) hid hnodup_rest
      refine ⟨w2, hw2, ihpk, ?_, ?_, ?_⟩
      · rw [ihbal]
        rw [show w1.available_balance
            = w.available_balance + (s.amount : Int) from rfl]
        rw [show slipAmountSum (s :: ownedFilter pk rest)
            = (s.amount : Int) + slipAmountSum (ownedFilter pk rest) by
          simp [slipAmountSum]]
        ring
      · intro k hk
        have hk1 : k ≠ s.get_utxoset_key := by
          intro hcontra
          exact hk (hcontra ▸ List.mem_cons_self _ _)
        have hk2 : k ∉ slipKeys (ownedFilter pk rest) := by
          intro hcontra
          exact hk (List.mem_cons_of_mem _ hcontra)
        obtain ⟨hs1, hs2⟩ := ihout k hk2
        constructor
        · rw [hs1, show w1.slips k
              = if k = s.get_utxoset_key then some (windEntry b i s)
                else w.slips k from rfl, if_neg hk1]
        · rw [hs2, show w1.unspent_slips k
              = if k = s.get_utxoset_key then true
                else w.unspent_slips k from rfl, if_neg hk1]
      · intro t ht
        rcases List.mem_cons.mp ht with heq | hmem
        · subst heq
          obtain ⟨hs1, hs2⟩ := ihout t.get_utxoset_key hkey_notin
          constructor
          · rw [hs1, show w1.slips t.get_utxoset_key
                = if t.get_utxoset_key = t.get_utxoset_key
                  then some (windEntry b i t) else w.slips t.get_utxoset_key
                from rfl, if_pos rfl]
          · rw [hs2, show w1.unspent_slips t.get_utxoset_key
                = if t.get_utxoset_key = t.get_utxoset_key
                  then true else w.unspent_slips t.get_utxoset_key
                from rfl, if_pos rfl]
        · exact ihadd t hmem
    · have hfil : ownedFilter pk (s :: rest) = ownedFilter pk rest := by
        simp [ownedFilter, List.filter, howned]
      rw [hfil] at hnodup ⊢
      have hstepcond : ¬ (s.amount > 0 ∧ s.public_key = w.public_key) := by
        rw [hpk]; exact howned
      have hloop : addLoop b i w (s :: rest) = addLoop b i w rest := by
        simp only [addLoop, List.foldlM]
        rw [if_neg hstepcond]
        rfl
      rw [hloop]
      exact ih w pk b i hpk hid hnodup

/-- Owned positive input slips of an indexed transaction list, tagged with
their transaction index. -/
def ownedInputPairs (pk : List Nat) (l : List (Nat × Transaction)) :
    List (Nat × Slip) :=
  l.flatMap (fun p => (ownedFilter pk p.2.inputs).map (fun s => (p.1, s)))

/-- Owned positive output slips of an indexed transaction list, tagged
with their transaction index. -/
def ownedOutputPairs (pk : List Nat) (l : List (Nat × Transaction)) :
    List (Nat × Slip) :=
  l.flatMap (fun p => (ownedFilter pk p.2.outputs).map (fun s => (p.1, s)))

/-- Keys of tagged slips. -/
def pairKeys (ps : List (Nat × Slip)) : List UtxoKey :=
  ps.map (fun p => p.2.get_utxoset_key)

/-- Total amount of tagged slips, in exact integers. -/
def pairAmountSum (ps : List (Nat × Slip)) : Int :=
  (ps.map (fun p => (p.2.amount : Int))).sum

theorem pairKeys_append (a b : List (Nat × Slip)) :
    pairKeys (a ++ b) = pairKeys a ++ pairKeys b := by
  simp [pairKeys]

theorem pairKeys_map (i : Nat) (xs : List Slip) :
    pairKeys (xs.map (fun s => (i, s))) = slipKeys xs := by
  simp [pairKeys, slipKeys]

theorem pairAmountSum_append (a b : List (Nat × Slip)) :
    pairAmountSum (a ++ b) = pairAmountSum a + pairAmountSum b := by
  simp [pairAmountSum]

theorem pairAmountSum_map (i : Nat) (xs : List Slip) :
    pairAmountSum (xs.map (fun s => (i, s))) = slipAmountSum xs := by
  simp only [pairAmountSum, slipAmountSum, List.map_map]
  rfl

theorem ownedInputPairs_cons (pk : List Nat) (i : Nat) (t : Transaction)
    (rest : List (Nat × Transaction)) :
    ownedInputPairs pk ((i, t) :: rest) =
      (ownedFilter pk t.inputs).map (fun s => (i, s)) ++
        ownedInputPairs pk rest := by
  simp [ownedInputPairs]

theorem ownedOutputPairs_cons (pk : List Nat) (i : Nat) (t : Transaction)
    (rest : List (Nat × Transaction)) :
    ownedOutputPairs pk ((i, t) :: rest) =
      (ownedFilter pk t.outputs).map (fun s => (i, s)) ++
        ownedOutputPairs pk rest := by
  simp [ownedOutputPairs]

theorem windTx_char (b : Block) (i : Nat) (t : Transaction) (w : Wallet)
    (pk : List Nat) (hpk : w.public_key = pk) (hid : b.id ≠ 0)
    (hnodup : (slipKeys (ownedFilter pk t.inputs) ++
      slipKeys (ownedFilter pk t.outputs)).Nodup)
    (hin : ∀ s ∈ ownedFilter pk t.inputs, ∃ e,
      w.slips s.get_utxoset_key = some e ∧ e.amount = s.amount ∧
      w.unspent_slips s.get_utxoset_key = true) :
    ∃ w2, w.windTx b i t = some w2 ∧
      w2.public_key = pk ∧
      w2.available_balance = w.available_balance -
        slipAmountSum (ownedFilter pk t.inputs) +
        slipAmountSum (ownedFilter pk t.outputs) ∧
      (∀ k, k ∉ slipKeys (ownedFilter pk t.inputs) →
        k ∉ slipKeys (ownedFilter pk t.outputs) →
        w2.slips k = w.slips k ∧
        w2.unspent_slips k = w.unspent_slips k) ∧
      (∀ s ∈ ownedFilter pk t.inputs,
        w2.slips s.get_utxoset_key = none ∧
        w2.unspent_slips s.get_utxoset_key = false) ∧
      (∀ s ∈ ownedFilter pk t.outputs,
        w2.slips s.get_utxoset_key = some (windEntry b i s) ∧
        w2.unspent_slips s.get_utxoset_key = true) := by
  obtain ⟨hnodup_in, hnodup_out, hdisj⟩ := List.nodup_append.mp hnodup
  obtain ⟨hdpk, hdbal, hdout, hddel⟩ :=
    deleteLoop_char t.inputs w pk hpk hnodup_in hin
  obtain ⟨w2, hw2, hapk, habal, haout, haadd⟩ :=
    addLoop_char t.outputs (deleteLoop w t.inputs) pk b i hdpk hid
      hnodup_out
  refine ⟨w2, by rw [windTx_eq_loops]; exact hw2, hapk, ?_, ?_, ?_, ?_⟩
  · rw [habal, hdbal]
  · intro k hkin hkout
    obtain ⟨ha1, ha2⟩ := haout k hkout
    obtain ⟨hd1, hd2⟩ := hdout k hkin
    exact ⟨ha1.trans hd1, ha2.trans hd2⟩
  · intro s hs
    have hsout : s.get_utxoset_key ∉ slipKeys (ownedFilter pk t.outputs) :=
      hdisj (List.mem_map_of_mem Slip.get_utxoset_key hs)
    obtain ⟨ha1, ha2⟩ := haout s.get_utxoset_key hsout
    obtain ⟨hd1, hd2⟩ := hddel s hs
    exact ⟨ha1.trans hd1, ha2.trans hd2⟩
  · exact haadd

theorem unwindTx_char (b : Block) (i : Nat) (t : Transaction) (w : Wallet)
    (pk : List Nat) (hpk : w.public_key = pk) (hid : b.id ≠ 0)
    (hnodup : (slipKeys (ownedFilter pk t.inputs) ++
      slipKeys (ownedFilter pk t.outputs)).Nodup)
    (hout : ∀ s ∈ ownedFilter pk t.outputs, ∃ e,
      w.slips s.get_utxoset_key = some e ∧ e.amount = s.amount ∧
      w.unspent_slips s.get_utxoset_key = true) :
    ∃ w2, w.unwindTx b i t = some w2 ∧
      w2.public_key = pk ∧
      w2.available_balance = w.available_balance +
        slipAmountSum (ownedFilter pk t.inputs) -
        slipAmountSum (ownedFilter pk t.outputs) ∧
      (∀ k, k ∉ slipKeys (ownedFilter pk t.inputs) →
        k ∉ slipKeys (ownedFilter pk t.outputs) →
        w2.slips k = w.slips k ∧
        w2.unspent_slips k = w.unspent_slips k) ∧
      (∀ s ∈ ownedFilter pk t.inputs,
        w2.slips s.get_utxoset_key = some (windEntry b i s) ∧
        w2.unspent_slips s.get_utxoset_key = true) ∧
      (∀ s ∈ ownedFilter pk t.outputs,
        w2.slips s.get_utxoset_key = none ∧
        w2.unspent_slips s.get_utxoset_key = false) := by
  obtain ⟨hnodup_in, hnodup_out, hdisj⟩ := List.nodup_append.mp hnodup
  obtain ⟨w1, hw1, hapk, habal, haout, haadd⟩ :=
    addLoop_char t.inputs w pk b i hpk hid hnodup_in
  have hout1 : ∀ s ∈ ownedFilter pk t.outputs, ∃ e,
      w1.slips s.get_utxoset_key = some e ∧ e.amount = s.amount ∧
      w1.unspent_slips s.get_utxoset_key = true := by
    intro s hs
    obtain ⟨e, he, heamt, heun⟩ := hout s hs
    have hsin : s.get_utxoset_key ∉ slipKeys (ownedFilter pk t.inputs) :=
      fun hc => hdisj hc (List.mem_map_of_mem Slip.get_utxoset_key hs)
    obtain ⟨ha1, ha2⟩ := haout s.get_utxoset_key hsin
    exact ⟨e, ha1.trans he, heamt, ha2.trans heun⟩
  obtain ⟨hdpk, hdbal, hdout, hddel⟩ :=
    deleteLoop_char t.outputs w1 pk hapk hnodup_out hout1
  refine ⟨deleteLoop w1 t.outputs, ?_, hdpk, ?_, ?_, ?_, hddel⟩
  · rw [unwindTx_eq_loops, hw1]
    rfl
  · rw [hdbal, habal]
  · intro k hkin hkout
    obtain ⟨hd1, hd2⟩ := hdout k hkout
    obtain ⟨ha1, ha2⟩ := haout k hkin
    exact ⟨hd1.trans ha1, hd2.trans ha2⟩
  · intro s hs
    have hsout : s.get_utxoset_key ∉ slipKeys (ownedFilter pk t.outputs) :=
      hdisj (List.mem_map_of_mem Slip.get_utxoset_key hs)
    obtain ⟨hd1, hd2⟩ := hdout s.get_utxoset_key hsout
    obtain ⟨ha1, ha2⟩ := haadd s hs
    exact ⟨hd1.trans ha1, hd2.trans ha2⟩

theorem windFold_char (b : Block) (hid : b.id ≠ 0) (pk : List Nat) :
    ∀ (l : List (Nat × Transaction)) (w : Wallet),
      w.public_key = pk →
      (pairKeys (ownedInputPairs pk l) ++
        pairKeys (ownedOutputPairs pk l)).Nodup →
      (∀ p ∈ ownedInputPairs pk l, ∃ e,
        w.slips p.2.get_utxoset_key = some e ∧ e.amount = p.2.amount ∧
        w.unspent_slips p.2.get_utxoset_key = true) →
      ∃ w2, l.foldlM (fun acc q => acc.windTx b q.1 q.2) w = some w2 ∧
        w2.public_key = pk ∧
        w2.available_balance = w.available_balance -
          pairAmountSum (ownedInputPairs pk l) +
          pairAmountSum (ownedOutputPairs pk l) ∧
        (∀ k, k ∉ pairKeys (ownedInputPairs pk l) →
          k ∉ pairKeys (ownedOutputPairs pk l) →
          w2.slips k = w.slips k ∧
          w2.unspent_slips k = w.unspent_slips k) ∧
        (∀ p ∈ ownedInputPairs pk l,
          w2.slips p.2.get_utxoset_key = none ∧
          w2.unspent_slips p.2.get_utxoset_key = false) ∧
        (∀ p ∈ ownedOutputPairs pk l,
          w2.slips p.2.get_utxoset_key = some (windEntry b p.1 p.2) ∧
          w2.unspent_slips p.2.get_utxoset_key = true) := by
  intro l
  induction l with
  | nil =>
    intro w hpk _ _
    refine ⟨w, rfl, hpk,
      by simp [ownedInputPairs, ownedOutputPairs, pairAmountSum], ?_, ?_, ?_⟩
    · intro k _ _
      exact ⟨rfl, rfl⟩
    · intro p hp
      simp [ownedInputPairs] at hp
    · intro p hp
      simp [ownedOutputPairs] at hp
  | cons q rest ih =>
    intro w hpk hnodup hin
    rcases q with ⟨i, t⟩
    rw [ownedInputPairs_cons] at hnodup hin ⊢
    rw [ownedOutputPairs_cons] at hnodup ⊢
    rw [pairKeys_append, pairKeys_append, pairKeys_map, pairKeys_map]
      at hnodup ⊢
    obtain ⟨hnI, hnO, hdIO⟩ := List.nodup_append.mp hnodup
    obtain ⟨hnIK, hnIR, hdIKIR⟩ := List.nodup_append.mp hnI
    obtain ⟨hnOK, hnOR, hdOKOR⟩ := List.nodup_append.mp hnO
    have hdIKOK : (slipKeys (ownedFilter pk t.inputs)).Disjoint
        (slipKeys (ownedFilter pk t.outputs)) := fun a ha hb =>
      hdIO (List.mem_append_left _ ha) (List.mem_append_left _ hb)
    have hdIKOR : (slipKeys (ownedFilter pk t.inputs)).Disjoint
        (pairKeys (ownedOutputPairs pk rest)) := fun a ha hb =>
      hdIO (List.mem_append_left _ ha) (List.mem_append_right _ hb)
    have hdIROK : (pairKeys (ownedInputPairs pk rest)).Disjoint
        (slipKeys (ownedFilter pk t.outputs)) := fun a ha hb =>
      hdIO (List.mem_append_right _ ha) (List.mem_append_left _ hb)
    have hdIROR : (pairKeys (ownedInputPairs pk rest)).Disjoint
        (pairKeys (ownedOutputPairs pk rest)) := fun a ha hb =>
      hdIO (List.mem_append_right _ ha) (List.mem_append_right _ hb)
    have hin_t : ∀ s ∈ ownedFilter pk t.inputs, ∃ e,
        w.slips s.get_utxoset_key = some e ∧ e.amount = s.amount ∧
        w.unspent_slips s.get_utxoset_key = true := by
      intro s hs
      exact hin (i, s) (List.mem_append_left _
        (List.mem_map_of_mem (fun s => (i, s)) hs))
    obtain ⟨w1, hw1, h1pk, h1bal, h1out, h1del, h1add⟩ :=
      windTx_char b i t w pk hpk hid
        (List.nodup_append.mpr ⟨hnIK, hnOK, hdIKOK⟩) hin_t
    have hin_rest : ∀ p ∈ ownedInputPairs pk rest, ∃ e,
        w1.slips p.2.get_utxoset_key = some e ∧ e.amount = p.2.amount ∧
        w1.unspent_slips p.2.get_utxoset_key = true := by
      intro p hp
      obtain ⟨e, he, heamt, heun⟩ :=
        hin p (List.mem_append_right _ hp)
      have hkmem : p.2.get_utxoset_key ∈
          pairKeys (ownedInputPairs pk rest) :=
        List.mem_map_of_mem (fun p => p.2.get_utxoset_key) hp
      have hk1 : p.2.get_utxoset_key ∉
          slipKeys (ownedFilter pk t.inputs) :=
        fun hc => hdIKIR hc hkmem
      have hk2 : p.2.get_utxoset_key ∉
          slipKeys (ownedFilter pk t.outputs) :=
        hdIROK hkmem
      obtain ⟨hs1, hs2⟩ := h1out p.2.get_utxoset_key hk1 hk2
      exact ⟨e, hs1.trans he, heamt, hs2.trans heun⟩
    obtain ⟨w2, hw2, h2pk, h2bal, h2out, h2del, h2add⟩ :=
      ih w1 h1pk (List.nodup_append.mpr ⟨hnIR, hnOR, hdIROR⟩) hin_rest
    have hfold : List.foldlM (fun acc q => acc.windTx b q.1 q.2) w
        ((i, t) :: rest) = some w2 := by
      rw [show List.foldlM (fun acc q => acc.windTx b q.1 q.2) w
          ((i, t) :: rest) = (w.windTx b i t).bind
          (fun w1 => List.foldlM (fun acc q => acc.windTx b q.1 q.2)
            w1 rest) by simp [List.foldlM]]
      rw [hw1]
      exact hw2
    refine ⟨w2, hfold, h2pk, ?_, ?_, ?_, ?_⟩
    · rw [h2bal, h1bal, pairAmountSum_append, pairAmountSum_append,
        pairAmountSum_map, pairAmountSum_map]
      ring
    · intro k hkin hkout
      rw [List.mem_append] at hkin hkout
      push_neg at hkin hkout
      obtain ⟨hs1, hs2⟩ := h2out k hkin.2 hkout.2
      obtain ⟨ht1, ht2⟩ := h1out k hkin.1 hkout.1
      exact ⟨hs1.trans ht1, hs2.trans ht2⟩
    · intro p hp
      rcases List.mem_append.mp hp with hp1 | hp2
      · obtain ⟨s, hs, hps⟩ := List.mem_map.mp hp1
        subst hps
        have hkmem : s.get_utxoset_key ∈
            slipKeys (ownedFilter pk t.inputs) :=
          List.mem_map_of_mem Slip.get_utxoset_key hs
        have hk1 : s.get_utxoset_key ∉
            pairKeys (ownedInputPairs pk rest) := hdIKIR hkmem
        have hk2 : s.get_utxoset_key ∉
            pairKeys (ownedOutputPairs pk rest) := hdIKOR hkmem
        obtain ⟨hs1, hs2⟩ := h2out s.get_utxoset_key hk1 hk2
        obtain ⟨hd1, hd2⟩ := h1del s hs
        exact ⟨hs1.trans hd1, hs2.trans hd2⟩
      · exact h2del p hp2
    · intro p hp
      rcases List.mem_append.mp hp with hp1 | hp2
      · obtain ⟨s, hs, hps⟩ := List.mem_map.mp hp1
        subst hps
        have hkmem : s.get_utxoset_key ∈
            slipKeys (ownedFilter pk t.outputs) :=
          List.mem_map_of_mem Slip.get_utxoset_key hs
        have hk1 : s.get_utxoset_key ∉
            pairKeys (ownedInputPairs pk rest) :=
          fun hc => hdIROK hc hkmem
        have hk2 : s.get_utxoset_key ∉
            pairKeys (ownedOutputPairs pk rest) :=
          fun hc => hdOKOR hkmem hc
        obtain ⟨hs1, hs2⟩ := h2out s.get_utxoset_key hk1 hk2
        obtain ⟨ha1, ha2⟩ := h1add s hs
        exact ⟨hs1.trans ha1, hs2.trans ha2⟩
      · exact h2add p hp2

theorem unwindFold_char (b : Block) (hid : b.id ≠ 0) (pk : List Nat) :
    ∀ (l : List (Nat × Transaction)) (w : Wallet),
      w.public_key = pk →
      (pairKeys (ownedInputPairs pk l) ++
        pairKeys (ownedOutputPairs pk l)).Nodup →
      (∀ p ∈ ownedOutputPairs pk l, ∃ e,
        w.slips p.2.get_utxoset_key = some e ∧ e.amount = p.2.amount ∧
        w.unspent_slips p.2.get_utxoset_key = true) →
      ∃ w2, l.foldlM (fun acc q => acc.unwindTx b q.1 q.2) w = some w2 ∧
        w2.public_key = pk ∧
        w2.available_balance = w.available_balance +
          pairAmountSum (ownedInputPairs pk l) -
          pairAmountSum (ownedOutputPairs pk l) ∧
        (∀ k, k ∉ pairKeys (ownedInputPairs pk l) →
          k ∉ pairKeys (ownedOutputPairs pk l) →
          w2.slips k = w.slips k ∧
          w2.unspent_slips k = w.unspent_slips k) ∧
        (∀ p ∈ ownedInputPairs pk l,
          w2.slips p.2.get_utxoset_key = some (windEntry b p.1 p.2) ∧
          w2.unspent_slips p.2.get_utxoset_key = true) ∧
        (∀ p ∈ ownedOutputPairs pk l,
          w2.slips p.2.get_utxoset_key = none ∧
          w2.unspent_slips p.2.get_utxoset_key = false) := by
  intro l
  induction l with
  | nil =>
    intro w hpk _ _
    refine ⟨w, rfl, hpk,
      by simp [ownedInputPairs, ownedOutputPairs, pairAmountSum], ?_, ?_, ?_⟩
    · intro k _ _
      exact ⟨rfl, rfl⟩
    · intro p hp
      simp [ownedInputPairs] at hp
    · intro p hp
      simp [ownedOutputPairs] at hp
  | cons q rest ih =>
    intro w hpk hnodup hout
    rcases q with ⟨i, t⟩
    rw [ownedOutputPairs_cons] at hnodup hout ⊢
    rw [ownedInputPairs_cons] at hnodup ⊢
    rw [pairKeys_append, pairKeys_append, pairKeys_map, pairKeys_map]
      at hnodup ⊢
    obtain ⟨hnI, hnO, hdIO⟩ := List.nodup_append.mp hnodup
    obtain ⟨hnIK, hnIR, hdIKIR⟩ := List.nodup_append.mp hnI
    obtain ⟨hnOK, hnOR, hdOKOR⟩ := List.nodup_append.mp hnO
    have hdIKOK : (slipKeys (ownedFilter pk t.inputs)).Disjoint
        (slipKeys (ownedFilter pk t.outputs)) := fun a ha hb =>
      hdIO (List.mem_append_left _ ha) (List.mem_append_left _ hb)
    have hdIKOR : (slipKeys (ownedFilter pk t.inputs)).Disjoint
        (pairKeys (ownedOutputPairs pk rest)) := fun a ha hb =>
      hdIO (List.mem_append_left _ ha) (List.mem_append_right _ hb)
    have hdIROK : (pairKeys (ownedInputPairs pk rest)).Disjoint
        (slipKeys (ownedFilter pk t.outputs)) := fun a ha hb =>
      hdIO (List.mem_append_right _ ha) (List.mem_append_left _ hb)
    have hdIROR : (pairKeys (ownedInputPairs pk rest)).Disjoint
        (pairKeys (ownedOutputPairs pk rest)) := fun a ha hb =>
      hdIO (List.mem_append_right _ ha) (List.mem_append_right _ hb)
    have hout_t : ∀ s ∈ ownedFilter pk t.outputs, ∃ e,
        w.slips s.get_utxoset_key = some e ∧ e.amount = s.amount ∧
        w.unspent_slips s.get_utxoset_key = true := by
      intro s hs
      exact hout (i, s) (List.mem_append_left _
        (List.mem_map_of_mem (fun s => (i, s)) hs))
    obtain ⟨w1, hw1, h1pk, h1bal, h1out, h1add, h1del⟩ :=
      unwindTx_char b i t w pk hpk hid
        (List.nodup_append.mpr ⟨hnIK, hnOK, hdIKOK⟩) hout_t
    have hout_rest : ∀ p ∈ ownedOutputPairs pk rest, ∃ e,
        w1.slips p.2.get_utxoset_key = some e ∧ e.amount = p.2.amount ∧
        w1.unspent_slips p.2.get_utxoset_key = true := by
      intro p hp
      obtain ⟨e, he, heamt, heun⟩ :=
        hout p (List.mem_append_right _ hp)
      have hkmem : p.2.get_utxoset_key ∈
          pairKeys (ownedOutputPairs pk rest) :=
        List.mem_map_of_mem (fun p => p.2.get_utxoset_key) hp
      have hk1 : p.2.get_utxoset_key ∉
          slipKeys (ownedFilter pk t.inputs) :=
        fun hc => hdIKOR hc hkmem
      have hk2 : p.2.get_utxoset_key ∉
          slipKeys (ownedFilter pk t.outputs) :=
        fun hc => hdOKOR hc hkmem
      obtain ⟨hs1, hs2⟩ := h1out p.2.get_utxoset_key hk1 hk2
      exact ⟨e, hs1.trans he, heamt, hs2.trans heun⟩
    obtain ⟨w2, hw2, h2pk, h2bal, h2out, h2add, h2del⟩ :=
      ih w1 h1pk (List.nodup_append.mpr ⟨hnIR, hnOR, hdIROR⟩) hout_rest
    have hfold : List.foldlM (fun acc q => acc.unwindTx b q.1 q.2) w
        ((i, t) :: rest) = some w2 := by
      rw [show List.foldlM (fun acc q => acc.unwindTx b q.1 q.2) w
          ((i, t) :: rest) = (w.unwindTx b i t).bind
          (fun w1 => List.foldlM (fun acc q => acc.unwindTx b q.1 q.2)
            w1 rest) by simp [List.foldlM]]
      rw [hw1]
      exact hw2
    refine ⟨w2, hfold, h2pk, ?_, ?_, ?_, ?_⟩
    · rw [h2bal, h1bal, pairAmountSum_append, pairAmountSum_append,
        pairAmountSum_map, pairAmountSum_map]
      ring
    · intro k hkin hkout
      rw [List.mem_append] at hkin hkout
      push_neg at hkin hkout
      obtain ⟨hs1, hs2⟩ := h2out k hkin.2 hkout.2
      obtain ⟨ht1, ht2⟩ := h1out k hkin.1 hkout.1
      exact ⟨hs1.trans ht1, hs2.trans ht2⟩
    · intro p hp
      rcases List.mem_append.mp hp with hp1 | hp2
      · obtain ⟨s, hs, hps⟩ := List.mem_map.mp hp1
        subst hps
        have hkmem : s.get_utxoset_key ∈
            slipKeys (ownedFilter pk t.inputs) :=
          List.mem_map_of_mem Slip.get_utxoset_key hs
        have hk1 : s.get_utxoset_key ∉
            pairKeys (ownedInputPairs pk rest) := hdIKIR hkmem
        have hk2 : s.get_utxoset_key ∉
            pairKeys (ownedOutputPairs pk rest) := hdIKOR hkmem
        obtain ⟨hs1, hs2⟩ := h2out s.get_utxoset_key hk1 hk2
        obtain ⟨ha1, ha2⟩ := h1add s hs
        exact ⟨hs1.trans ha1, hs2.trans ha2⟩
      · exact h2add p hp2
    · intro p hp
      rcases List.mem_append.mp hp with hp1 | hp2
      · obtain ⟨s, hs, hps⟩ := List.mem_map.mp hp1
        subst hps
        have hkmem : s.get_utxoset_key ∈
            slipKeys (ownedFilter pk t.outputs) :=
          List.mem_map_of_mem Slip.get_utxoset_key hs
        have hk1 : s.get_utxoset_key ∉
            pairKeys (ownedInputPairs pk rest) :=
          fun hc => hdIROK hc hkmem
        have hk2 : s.get_utxoset_key ∉
            pairKeys (ownedOutputPairs pk rest) :=
          fun hc => hdOKOR hkmem hc
        obtain ⟨hs1, hs2⟩ := h2out s.get_utxoset_key hk1 hk2
        obtain ⟨hd1, hd2⟩ := h1del s hs
        exact ⟨hs1.trans hd1, hs2.trans hd2⟩
      · exact h2del p hp2

/-- C8 amended: winding then unwinding a block restores the wallet
mirror's unspent-key set and available balance exactly, and restores the
slips map except that every slip spent by the block is re-added with the
spending block's id and transaction ordinal as its provenance (amount,
slip index and spent flag as before); hypotheses: the block id is
nonzero, the owned positive slips of the block have pairwise distinct
keys, every owned positive input is tracked unspent with matching amount,
and no owned positive output is tracked. -/
theorem C8_wallet_roundtrip_amended (w : Wallet) (b : Block)
    (hid : b.id ≠ 0)
    (hnodup : (pairKeys (ownedInputPairs w.public_key
        b.transactions.enum) ++
      pairKeys (ownedOutputPairs w.public_key b.transactions.enum)).Nodup)
    (hin : ∀ p ∈ ownedInputPairs w.public_key b.transactions.enum, ∃ e,
      w.slips p.2.get_utxoset_key = some e ∧ e.amount = p.2.amount ∧
      w.unspent_slips p.2.get_utxoset_key = true)
    (hout : ∀ p ∈ ownedOutputPairs w.public_key b.transactions.enum,
      w.slips p.2.get_utxoset_key = none ∧
      w.unspent_slips p.2.get_utxoset_key = false) :
    ∃ w2, (w.on_chain_reorganization b true).bind
        (fun w1 => w1.on_chain_reorganization b false) = some w2 ∧
      w2.public_key = w.public_key ∧
      w2.available_balance = w.available_balance ∧
      (∀ k, w2.unspent_slips k = w.unspent_slips k) ∧
      (∀ k, k ∉ pairKeys (ownedInputPairs w.public_key
        b.transactions.enum) → w2.slips k = w.slips k) ∧
      (∀ p ∈ ownedInputPairs w.public_key b.transactions.enum,
        w2.slips p.2.get_utxoset_key = some (windEntry b p.1 p.2)) := by
  obtain ⟨w1, hw1, h1pk, h1bal, h1out, h1del, h1add⟩ :=
    windFold_char b hid w.public_key b.transactions.enum w rfl hnodup hin
  have hout1 : ∀ p ∈ ownedOutputPairs w.public_key b.transactions.enum,
      ∃ e, w1.slips p.2.get_utxoset_key = some e ∧
      e.amount = p.2.amount ∧
      w1.unspent_slips p.2.get_utxoset_key = true := by
    intro p hp
    obtain ⟨ha1, ha2⟩ := h1add p hp
    exact ⟨windEntry b p.1 p.2, ha1, rfl, ha2⟩
  obtain ⟨w2, hw2, h2pk, h2bal, h2out, h2add, h2del⟩ :=
    unwindFold_char b hid w.public_key b.transactions.enum w1 h1pk
      hnodup hout1
  have hcomp : (w.on_chain_reorganization b true).bind
      (fun x => x.on_chain_reorganization b false) = some w2 := by
    rw [show w.on_chain_reorganization b true = List.foldlM
        (fun acc q => acc.windTx b q.1 q.2) w b.transactions.enum
      from rfl, hw1]
    exact hw2
  refine ⟨w2, hcomp, h2pk.trans rfl, ?_, ?_, ?_, ?_⟩
  · rw [h2bal, h1bal]
    ring
  · intro k
    by_cases hkin : k ∈ pairKeys (ownedInputPairs w.public_key
      b.transactions.enum)
    · obtain ⟨p, hp, hpk2⟩ := List.mem_map.mp hkin
      obtain ⟨e, _, _, heun⟩ := hin p hp
      obtain ⟨_, ha2⟩ := h2add p hp
      rw [← hpk2]
      rw [ha2, heun]
    · by_cases hkout : k ∈ pairKeys (ownedOutputPairs w.public_key
        b.transactions.enum)
      · obtain ⟨p, hp, hpk2⟩ := List.mem_map.mp hkout
        obtain ⟨_, hun⟩ := hout p hp
        obtain ⟨_, hd2⟩ := h2del p hp
        rw [← hpk2]
        rw [hd2, hun]
      · obtain ⟨_, hs2⟩ := h2out k hkin hkout
        obtain ⟨_, ht2⟩ := h1out k hkin hkout
        rw [hs2, ht2]
  · intro k hkin
    by_cases hkout : k ∈ pairKeys (ownedOutputPairs w.public_key
      b.transactions.enum)
    · obtain ⟨p, hp, hpk2⟩ := List.mem_map.mp hkout
      obtain ⟨hsl, _⟩ := hout p hp
      obtain ⟨hd1, _⟩ := h2del p hp
      rw [← hpk2]
      rw [hd1, hsl]
    · obtain ⟨hs1, _⟩ := h2out k hkin hkout
      obtain ⟨ht1, _⟩ := h1out k hkin hkout
      rw [hs1, ht1]
  · intro p hp
    exact (h2add p hp).1

/-- Witness for the amended C8 theorem at the concrete wallet and block of
the counterexample. -/
theorem C8_wallet_roundtrip_amended_witness :
    ∃ w2, (c8Wallet.on_chain_reorganization c8Block true).bind
        (fun w1 => w1.on_chain_reorganization c8Block false) = some w2 ∧
      w2.public_key = c8Wallet.public_key ∧
      w2.available_balance = c8Wallet.available_balance ∧
      (∀ k, w2.unspent_slips k = c8Wallet.unspent_slips k) ∧
      (∀ k, k ∉ pairKeys (ownedInputPairs c8Wallet.public_key
        c8Block.transactions.enum) → w2.slips k = c8Wallet.slips k) ∧
      (∀ p ∈ ownedInputPairs c8Wallet.public_key c8Block.transactions.enum,
        w2.slips p.2.get_utxoset_key =
          some (windEntry c8Block p.1 p.2)) := by
  have hpairs : ownedInputPairs c8Wallet.public_key
      c8Block.transactions.enum = [(0, c8Slip)] := by decide
  refine C8_wallet_roundtrip_amended c8Wallet c8Block (by decide)
    (by decide) ?_ ?_
  · intro p hp
    rw [hpairs] at hp
    rw [List.mem_singleton.mp hp]
    exact ⟨c8SlipBefore, by decide, by decide, by decide⟩
  · intro p hp
    have : ownedOutputPairs c8Wallet.public_key
        c8Block.transactions.enum = [] := by decide
    rw [this] at hp
    exact absurd hp (List.not_mem_nil p)

/-! ## The reorg engine (blockchain.rs: validate, wind_chain,
unwind_chain, add_block) -/

/-- Block-file storage interface.  Modelled from the spec: the only
behavior the reorg engine relies on is loading the transaction data of a
block when a pruned block is upgraded to the Full tier. -/
structure Storage where
  load : SaitoHash → Option (List Transaction)

/-- Modelled from the spec: upgrade_block_to_block_type(Full) loads the
transaction data of a pruned block and marks it Full; a block already at
the Full tier is left untouched. -/
def Block.upgradeFull (b : Block) (storage : Storage) : Block :=
  if b.block_type = BlockType.Full then b
  else { b with block_type := BlockType.Full
                transactions := (storage.load b.hash).getD b.transactions }

/-- Modelled from the spec: downgrading to the Pruned tier drops the
transaction data. -/
def Block.downgrade_block_to_block_type (b : Block) (t : BlockType) :
    Block :=
  { b with block_type := t, transactions := [] }

/-- Pointwise removal from the UtxoSet. -/
def UtxoSet.remove (u : UtxoSet) (k : UtxoKey) : UtxoSet :=
  fun k2 => if k2 = k then none else u k2

/-- Modelled from the spec: Block::delete removes the UtxoSet entries of
every slip of the block (slips are removed entirely on pruning). -/
def Block.deleteFromUtxoset (b : Block) (u : UtxoSet) : UtxoSet :=
  b.transactions.foldl (fun acc tx =>
    tx.outputs.foldl (fun a s => a.remove s.get_utxoset_key)
      (tx.inputs.foldl (fun a s => a.remove s.get_utxoset_key) acc)) u

/-- Mutation of one block of the block map through get_mut. -/
def Blockchain.updateBlock (bc : Blockchain) (h : SaitoHash)
    (f : Block → Block) : Blockchain :=
  { bc with blocks := aupdate bc.blocks h f }

/-- Blockchain::set_fork_id, from blockchain.rs. -/
def Blockchain.set_fork_id (bc : Blockchain) (fork_id : SaitoHash) :
    Blockchain :=
  { bc with fork_id := fork_id }

/-- Blockchain::downgrade_blockchain_data, from blockchain.rs: once the
chain is at least PRUNE_AFTER_BLOCKS long, downgrade every block at
latest_id - PRUNE_AFTER_BLOCKS to the Pruned tier. -/
def Blockchain.downgrade_blockchain_data (bc : Blockchain) : Blockchain :=
  if PRUNE_AFTER_BLOCKS > bc.get_latest_block_id then bc
  else
    let prune_blocks_at_block_id :=
      bc.get_latest_block_id - PRUNE_AFTER_BLOCKS
    let hashes :=
      bc.blockring.get_block_hashes_at_block_id prune_blocks_at_block_id
    hashes.foldl (fun acc h =>
      if (alookup acc.blocks h).isSome then
        acc.updateBlock h
          (fun blk => blk.downgrade_block_to_block_type BlockType.Pruned)
      else acc) bc

/-- Blockchain::delete_block, from blockchain.rs: remove the slips of the
block from the wallet, its entries from the UtxoSet, its ring entry and
its block-map entry (the disk file removal has no model state).  none
models the unwrap panic when the hash is not indexed. -/
def Blockchain.delete_block (bc : Blockchain) (delete_block_id : Nat)
    (delete_block_hash : SaitoHash) : Option Blockchain :=
  match alookup bc.blocks delete_block_hash with
  | none => none
  | some pblock =>
    let wallet1 := bc.wallet.delete_block pblock
    let utxo1 := pblock.deleteFromUtxoset bc.utxoset
    let ring1 := bc.blockring.delete_block delete_block_id
      delete_block_hash
    let blocks1 := if (alookup bc.blocks delete_block_hash).isSome
      then aremove bc.blocks delete_block_hash else bc.blocks
    some { bc with
      wallet := wallet1
      utxoset := utxo1
      blockring := ring1
      blocks := blocks1 }

/-- Blockchain::delete_blocks, from blockchain.rs: delete every block the
ring holds at the given id (the hash list is collected first). -/
def Blockchain.delete_blocks (bc : Blockchain) (delete_block_id : Nat) :
    Option Blockchain :=
  (bc.blockring.get_block_hashes_at_block_id delete_block_id).foldlM
    (fun acc h => acc.delete_block delete_block_id h) bc

/-- Blockchain::update_genesis_period, from blockchain.rs. -/
def Blockchain.update_genesis_period (bc : Blockchain) :
    Option Blockchain :=
  let latest_block_id := bc.get_latest_block_id
  if latest_block_id ≥ GENESIS_PERIOD * 2 + 1 then
    let purge_bid := latest_block_id - GENESIS_PERIOD * 2
    let bc1 := { bc with
      genesis_block_id := latest_block_id - GENESIS_PERIOD }
    if purge_bid > 0 then bc1.delete_blocks purge_bid else some bc1
  else some bc

/-- Blockchain::on_chain_reorganization, from blockchain.rs: skip when
the latest id is already at or past the block id; on the longest chain
update the genesis period and regenerate the fork id; always downgrade
old data. -/
def Blockchain.on_chain_reorganization (bc : Blockchain) (block_id : Nat)
    (longest_chain : Bool) : Option Blockchain :=
  if bc.get_latest_block_id ≥ block_id then some bc
  else
    (if longest_chain then
      (bc.update_genesis_period).map
        (fun bc1 => bc1.set_fork_id (bc1.generate_fork_id block_id))
    else some bc).map
      (fun bc2 => bc2.downgrade_blockchain_data)

/-- The predecessor upgrade loop at the head of wind_chain, from
blockchain.rs: the source breaks out when i reaches latest_block_id; as i
only grows, skipping instead of breaking computes the same fold. -/
def stakerUpgrade (storage : Storage) (bc : Blockchain)
    (latest_block_id : Nat) : Blockchain :=
  (List.range' 1 (MAX_STAKER_RECURSION - 1)).foldl (fun acc i =>
    if i ≥ latest_block_id then acc
    else
      let bid := latest_block_id - i
      let previous_block_hash :=
        acc.blockring.get_longest_chain_block_hash_by_block_id bid
      if acc.is_block_indexed previous_block_hash then
        acc.updateBlock previous_block_hash
          (fun blk => blk.upgradeFull storage)
      else acc) bc

mutual

/-- Blockchain::wind_chain, from blockchain.rs.  fuel bounds the
recursion (the source recursion is unbounded for adversarial inputs);
none models fuel exhaustion and the panics (missing index, missing
block).  The validator argument v stands for Block::validate (block.rs is
not among the provided sources; the reorg engine treats it as a read-only
predicate of the block and the current UtxoSet). -/
def windChain (v : Block → UtxoSet → Bool) (storage : Storage) :
    Nat → Blockchain → List SaitoHash → List SaitoHash → Nat → Bool →
    Option (Bool × Blockchain)
  | 0, _, _, _, _, _ => none
  | fuel + 1, bc, new_chain, old_chain, current_wind_index,
      wind_failure =>
    if wind_failure ∧ new_chain = [] then some (false, bc)
    else
      match new_chain.get? current_wind_index with
      | none => none
      | some block_hash =>
        match alookup bc.blocks block_hash with
        | none => none
        | some _ =>
          let bc1 := bc.updateBlock block_hash
            (fun blk => blk.upgradeFull storage)
          match alookup bc1.blocks block_hash with
          | none => none
          | some block1 =>
            let bc2 := stakerUpgrade storage bc1 block1.id
            match alookup bc2.blocks block_hash with
            | none => none
            | some block =>
              if block.block_type ≠ BlockType.Full then none
              else if v block bc2.utxoset then
                let ring1 := (bc2.blockring.on_chain_reorganization
                  block.id block.hash true).1
                match bc2.wallet.on_chain_reorganization block true with
                | none => none
                | some wallet1 =>
                  let pr := block.on_chain_reorganization bc2.utxoset true
                  let bc3 := { bc2 with
                    blockring := ring1
                    wallet := wallet1
                    utxoset := pr.2
                    blocks := aupdate bc2.blocks block_hash
                      (fun _ => pr.1) }
                  match bc3.on_chain_reorganization block.id true with
                  | none => none
                  | some bc4 =>
                    if current_wind_index = 0 then
                      if wind_failure then some (false, bc4)
                      else some (true, bc4)
                    else
                      windChain v storage fuel bc4 new_chain old_chain
                        (current_wind_index - 1) false
              else
                if current_wind_index = new_chain.length - 1 then
                  if old_chain ≠ [] then
                    windChain v storage fuel bc2 old_chain new_chain
                      (old_chain.length - 1) true
                  else some (false, bc2)
                else
                  unwindChain v storage fuel bc2 old_chain
                    (new_chain.drop (current_wind_index + 1)) 0 true

/-- Blockchain::unwind_chain, from blockchain.rs: unwind
old_chain[current_unwind_index], then continue unwinding or begin winding
the new chain.  fuel and none as in windChain. -/
def unwindChain (v : Block → UtxoSet → Bool) (storage : Storage) :
    Nat → Blockchain → List SaitoHash → List SaitoHash → Nat → Bool →
    Option (Bool × Blockchain)
  | 0, _, _, _, _, _ => none
  | fuel + 1, bc, new_chain, old_chain, current_unwind_index,
      wind_failure =>
    match old_chain.get? current_unwind_index with
    | none => none
    | some h =>
      match alookup bc.blocks h with
      | none => none
      | some _ =>
        let bc1 := bc.updateBlock h (fun blk => blk.upgradeFull storage)
        match alookup bc1.blocks h with
        | none => none
        | some block =>
          let block_id := block.id
          let pr := block.on_chain_reorganization bc1.utxoset false
          let bc2 := { bc1 with
            utxoset := pr.2
            blocks := aupdate bc1.blocks h (fun _ => pr.1) }
          let ring1 := (bc2.blockring.on_chain_reorganization block.id
            block.hash false).1
          let bc3 := { bc2 with blockring := ring1 }
          match bc3.wallet.on_chain_reorganization block false with
          | none => none
          | some wallet1 =>
            let bc4 := { bc3 with wallet := wallet1 }
            match bc4.on_chain_reorganization block_id false with
            | none => none
            | some bc5 =>
              if current_unwind_index = old_chain.length - 1 then
                windChain v storage fuel bc5 new_chain old_chain
                  (new_chain.length - 1) wind_failure
              else
                unwindChain v storage fuel bc5 new_chain old_chain
                  (current_unwind_index + 1) wind_failure

end

/-- Blockchain::validate, from blockchain.rs: check golden-ticket density
once for the whole chain, then wind directly (no old chain) or start by
unwinding the old chain.  The wind_failure flag of the initial
unwind_chain call is true, as in the source. -/
def validateChains (v : Block → UtxoSet → Bool) (storage : Storage)
    (fuel : Nat) (bc : Blockchain)
    (new_chain old_chain : List SaitoHash) : Option (Bool × Blockchain) :=
  match new_chain.head? with
  | none => none
  | some h0 =>
    match alookup bc.blocks h0 with
    | none => none
    | some block =>
      if ¬ bc.is_golden_ticket_count_valid block.previous_block_hash
          block.has_golden_ticket then some (false, bc)
      else if old_chain.isEmpty then
        windChain v storage fuel bc new_chain old_chain
          (new_chain.length - 1) false
      else if ¬ new_chain.isEmpty then
        unwindChain v storage fuel bc new_chain old_chain 0 true
      else some (false, bc)

/-! ## C1: reorg atomicity of validate -/

/-- Old chain, wound: block of id 2 at hash 2, id 3 at hash 3, over the
shared ancestor of id 1 at hash 1. -/
def c1G1 : Block := testBlock 1 (testHash 1) zeroHash 0 false true

def c1OA : Block := testBlock 2 (testHash 2) (testHash 1) 0 false true

def c1OB : Block := testBlock 3 (testHash 3) (testHash 2) 0 false true

/-- New chain, not yet wound: blocks of ids 2, 3, 4 at hashes 12, 13, 14. -/
def c1NA : Block := testBlock 2 (testHash 12) (testHash 1) 0 false false

def c1NB : Block := testBlock 3 (testHash 13) (testHash 12) 0 false false

def c1NC : Block := testBlock 4 (testHash 14) (testHash 13) 0 false false

/-- A validator that rejects exactly the deepest new-chain block: the wind
of the new chain fails on its first step, so validate rewinds the old
chain. -/
def c1V : Block → UtxoSet → Bool :=
  fun b _ => b.hash ≠ testHash 12

def c1Storage : Storage := ⟨fun _ => none⟩

/-- The pre-call state: the old chain of ids 1, 2, 3 is the longest chain
(ring slots 1, 2, 3 select its hashes, the top pointer sits at slot 3),
and the new-chain blocks are indexed but unwound. -/
def c1State : Blockchain :=
  { utxoset := fun _ => none
    blockring :=
      { ring := fun i =>
          if i = 1 then ⟨[1], [testHash 1], some 0⟩
          else if i = 2 then ⟨[2, 2], [testHash 2, testHash 12], some 0⟩
          else if i = 3 then ⟨[3, 3], [testHash 3, testHash 13], some 0⟩
          else if i = 4 then ⟨[4], [testHash 14], none⟩
          else RingItem.new
        lc_pos := some 3
        empty := false }
    blocks := [(testHash 1, c1G1), (testHash 2, c1OA), (testHash 3, c1OB),
      (testHash 12, c1NA), (testHash 13, c1NB), (testHash 14, c1NC)]
    wallet :=
      { public_key := []
        slips := fun _ => none
        unspent_slips := fun _ => false
        available_balance := 0 }
    genesis_block_id := 0
    fork_id := zeroHash }

def c1NewChain : List SaitoHash := [testHash 14, testHash 13, testHash 12]

def c1OldChain : List SaitoHash := [testHash 3, testHash 2]

/-- The run of Blockchain::validate on that state. -/
def c1Run : Option (Bool × Blockchain) :=
  validateChains c1V c1Storage 8 c1State c1NewChain c1OldChain

/-- C1: violated by the code.  The deepest new-chain block fails
validation, so validate unwinds the old chain, starts winding the new
chain, fails, and rewinds the old chain with wind_failure = true — but the
success branch of wind_chain recurses with wind_failure hardcoded to
false, so after rewinding an old chain of length at least 2 the call
returns true.  The returned flag is true while every piece of state still
reflects the old chain: the BlockRing selects the old tip (hash 3, not the
new tip hash 14), the new-chain blocks keep in_longest_chain = false and
the old-chain blocks keep in_longest_chain = true. -/
theorem C1_reorg_atomicity_code_bug :
    c1Run.map Prod.fst = some true ∧
    c1Run.map (fun p => p.2.get_latest_block_hash) = some (testHash 3) ∧
    testHash 3 ≠ testHash 14 ∧
    c1Run.map (fun p => (alookup p.2.blocks (testHash 14)).map
      Block.in_longest_chain) = some (some false) ∧
    c1Run.map (fun p => (alookup p.2.blocks (testHash 3)).map
      Block.in_longest_chain) = some (some true) := by
  refine ⟨rfl, rfl, by decide, rfl, rfl⟩

/-! ## add_block: shared-ancestor walks, out-of-order edge case,
success and failure paths (blockchain.rs) -/

/-- The first while loop of add_block: walk predecessors from the new
block until a longest-chain block, the zero hash, or a missing block is
met.  Returns (new_chain, shared_ancestor_found, final hash); fuel bounds
the unbounded source loop (none = exhaustion). -/
def walkNewChain (blocks : List (SaitoHash × Block)) :
    Nat → SaitoHash → List SaitoHash →
    Option (List SaitoHash × Bool × SaitoHash)
  | 0, _, _ => none
  | fuel + 1, h, acc =>
    match alookup blocks h with
    | none => some (acc, false, h)
    | some b =>
      if b.in_longest_chain then some (acc, true, h)
      else if h = zeroHash then some (acc, false, h)
      else walkNewChain blocks fuel b.previous_block_hash (acc ++ [h])

/-- The second while loop of add_block: collect the old chain down to the
shared ancestor sa (stopping at a missing block or a zero parent). -/
def walkOldChain (blocks : List (SaitoHash × Block)) (sa : SaitoHash) :
    Nat → SaitoHash → List SaitoHash → Option (List SaitoHash)
  | 0, _, _ => none
  | fuel + 1, h, acc =>
    if h = sa then some acc
    else
      match alookup blocks h with
      | none => some acc
      | some b =>
        if b.previous_block_hash = zeroHash then some (acc ++ [h])
        else walkOldChain blocks sa fuel b.previous_block_hash (acc ++ [h])

/-- Clearing of a block's longest-chain flag, as done by the out-of-order
edge case of add_block. -/
def lcCleared (b : Block) : Block := { b with in_longest_chain := false }

/-- One iteration of the out-of-order demote loop of add_block: demote the
selected hash at height i off the longest chain, unless it is the zero
hash. -/
def demoteStep (acc : Blockchain) (i : Nat) : Blockchain :=
  let disconnected_block_hash :=
    acc.blockring.get_longest_chain_block_hash_by_block_id i
  if disconnected_block_hash ≠ zeroHash then
    let acc1 := { acc with blockring :=
      (acc.blockring.on_chain_reorganization i disconnected_block_hash
        false).1 }
    acc1.updateBlock disconnected_block_hash lcCleared
  else acc

/-- The out-of-order demote loop of add_block: for i in
block_id + 1 .. disconnected_block_id (exclusive upper bound, as in the
source). -/
def demoteLoop (bc : Blockchain) (block_id disconnected_block_id : Nat) :
    Blockchain :=
  (List.range' (block_id + 1)
    (disconnected_block_id - (block_id + 1))).foldl demoteStep bc

/-- The fork-geometry portion of add_block: the two walks, and the
out-of-order edge case when no shared ancestor is found.  Returns the
updated state, new_chain, old_chain and the am_i_the_longest_chain flag
settled so far.  pbh is the previous_block_hash variable of add_block,
which the source binds to the BlockRing latest hash. -/
def forkGeometry (bc : Blockchain) (fuel : Nat)
    (block_hash pbh : SaitoHash) (block_id : Nat) :
    Option (Blockchain × List SaitoHash × List SaitoHash × Bool) :=
  match walkNewChain bc.blocks fuel block_hash [] with
  | none => none
  | some (new_chain, found, sa) =>
    if found then
      match walkOldChain bc.blocks sa fuel pbh [] with
      | none => none
      | some old_chain => some (bc, new_chain, old_chain, false)
    else
      if bc.blockring.is_empty then some (bc, new_chain, [], false)
      else if pbh ≠ zeroHash ∧ pbh = bc.get_latest_block_hash then
        some (demoteLoop bc block_id bc.get_latest_block_id,
          [block_hash], [], true)
      else some (bc, new_chain, [], false)

/-- Blockchain::add_block_success, from blockchain.rs, restricted to its
state effects: retain the mempool transactions that still spend validly,
delete the block's transactions from the mempool, and re-upgrade the block
at latest_id - GENESIS_PERIOD (none models the assert_ne and unwrap
panics; disk and network effects have no model state). -/
def Blockchain.add_block_success (bc : Blockchain) (storage : Storage)
    (block_hash : SaitoHash) (mempool : Mempool) :
    Option (Blockchain × Mempool) :=
  match alookup bc.blocks block_hash with
  | none => none
  | some block =>
    let retained := mempool.transactions.filter
      (fun p => p.2.validate_against_utxoset bc.utxoset)
    let mp1 := { mempool with transactions := retained }
    let mp2 := mp1.delete_transactions block.transactions
    if bc.get_latest_block_id > GENESIS_PERIOD then
      let pruned_block_hash :=
        bc.blockring.get_longest_chain_block_hash_by_block_id
          (bc.get_latest_block_id - GENESIS_PERIOD)
      if pruned_block_hash = zeroHash then none
      else
        match alookup bc.blocks pruned_block_hash with
        | none => none
        | some _ =>
          some (bc.updateBlock pruned_block_hash
            (fun b => b.upgradeFull storage), mp2)
    else some (bc, mp2)

/-- Blockchain::add_block_failure, from blockchain.rs: drop the golden
ticket targeting the block from the mempool, remove the block from the
block map, and when the block was our own, re-insert its still-valid
Normal transactions into the mempool and set new_tx_added. -/
def Blockchain.add_block_failure (bc : Blockchain)
    (block_hash : SaitoHash) (mempool : Mempool) :
    Option (Blockchain × Mempool) :=
  let mp1 := mempool.delete_block block_hash
  match alookup bc.blocks block_hash with
  | none => none
  | some block =>
    let bc1 := { bc with blocks := aremove bc.blocks block_hash }
    if block.creator = mp1.public_key then
      let txs := block.transactions.filter (fun tx =>
        decide (tx.transaction_type = TransactionType.Normal) &&
          tx.validate bc1.utxoset)
      some (bc1, { mp1 with
        transactions := txs.foldl
          (fun acc tx => ainsert acc tx.signature tx) mp1.transactions
        new_tx_added := true })
    else some (bc1, mp1)

/-- Blockchain::add_block, from blockchain.rs (the network fetch, disk
and miner notifications have no model state; the validator v and fuel as
in validateChains). -/
def Blockchain.add_block (bc : Blockchain) (v : Block → UtxoSet → Bool)
    (storage : Storage) (fuel : Nat) (block0 : Block) (mempool : Mempool) :
    Option (AddBlockResult × Blockchain × Mempool) :=
  let block := block0.generate
  let block_hash := block.hash
  let block_id := block.id
  let previous_block_hash := bc.blockring.get_latest_block_hash
  if (alookup bc.blocks block_hash).isSome then
    some (AddBlockResult.BlockAlreadyExists, bc, mempool)
  else if ¬ bc.blockring.is_empty ∧
      alookup bc.blocks block.previous_block_hash = none ∧
      block.previous_block_hash ≠ zeroHash ∧
      block.source_connection_id.isSome then
    some (AddBlockResult.FailedButRetry, bc, mempool.add_block block)
  else
    let ring1 :=
      if ¬ bc.blockring.contains_block_hash_at_block_id block_id block_hash
      then bc.blockring.add_block block else bc.blockring
    let bc1 := { bc with blockring := ring1 }
    if (alookup bc1.blocks block_hash).isSome then
      some (AddBlockResult.BlockAlreadyExists, bc1, mempool)
    else
      let bc2 := { bc1 with blocks := ainsert bc1.blocks block_hash block }
      match forkGeometry bc2 fuel block_hash previous_block_hash block_id
      with
      | none => none
      | some (bc3, new_chain, old_chain, am_i0) =>
        match (if am_i0 then some true
          else bc3.is_new_chain_the_longest_chain new_chain old_chain) with
        | none => none
        | some am_i =>
          let bc4 := { bc3 with blockring :=
            { bc3.blockring with empty := false } }
          if am_i then
            match alookup bc4.blocks block_hash with
            | none => none
            | some _ =>
              let bc5 := bc4.updateBlock block_hash
                (fun b => { b with in_longest_chain := true })
              match validateChains v storage fuel bc5 new_chain old_chain
              with
              | none => none
              | some (ok, bc6) =>
                if ok then
                  (bc6.add_block_success storage block_hash mempool).map
                    (fun p => (AddBlockResult.BlockAdded, p.1, p.2))
                else
                  match alookup bc6.blocks block_hash with
                  | none => none
                  | some _ =>
                    let bc7 := bc6.updateBlock block_hash
                      (fun b => { b with in_longest_chain := false })
                    (bc7.add_block_failure block_hash mempool).map
                      (fun p => (AddBlockResult.FailedButRetry, p.1, p.2))
          else
            (bc4.add_block_success storage block_hash mempool).map
              (fun p => (AddBlockResult.BlockAdded, p.1, p.2))

/-! ## C4: out-of-order edge case -/

def c4Storage : Storage := ⟨fun _ => none⟩

def c4V : Block → UtxoSet → Bool := fun _ _ => true

def c4B1 : Block := testBlock 1 (testHash 1) zeroHash 0 false true

def c4B2 : Block := testBlock 2 (testHash 2) (testHash 1) 0 false true

/-- The out-of-order block: id 1, parent hash 3 (the current tip). -/
def c4Block : Block := testBlock 1 (testHash 9) (testHash 3) 0 false false

def c4Mempool : Mempool := ⟨[], [], fun _ => none, 0, false, []⟩

/-- Pre-call state for the C4 counterexample: heights 1, 2, 3 are selected
in the ring (the block of the tip height 3 is no longer in the block map,
so the predecessor walk from the new block cannot meet the longest
chain). -/
def c4State : Blockchain :=
  { utxoset := fun _ => none
    blockring :=
      { ring := fun i =>
          if i = 1 then ⟨[1], [testHash 1], some 0⟩
          else if i = 2 then ⟨[2], [testHash 2], some 0⟩
          else if i = 3 then ⟨[3], [testHash 3], some 0⟩
          else RingItem.new
        lc_pos := some 3
        empty := false }
    blocks := [(testHash 1, c4B1), (testHash 2, c4B2)]
    wallet :=
      { public_key := []
        slips := fun _ => none
        unspent_slips := fun _ => false
        available_balance := 0 }
    genesis_block_id := 0
    fork_id := zeroHash }

def c4Run : Option (AddBlockResult × Blockchain × Mempool) :=
  c4State.add_block c4V c4Storage 8 c4Block c4Mempool

/-- C4, counterexample.  The new block has id 1 and its
previous_block_hash is the current tip hash (height 3), the walk finds no
longest-chain block, so the out-of-order edge case runs.  The claim
demotes every height in (1, 3] — heights 2 and 3 — but the source loop
runs over block_id + 1 .. latest_id with an exclusive upper bound: height
2 is demoted (slot lc_pos cleared, block flag cleared) while the slot of
height 3, the latest height, keeps its lc_pos set. -/
theorem C4_out_of_order_counterexample :
    c4Run.map (fun r => r.1) = some AddBlockResult.BlockAdded ∧
    c4Run.map (fun r => ((r.2.1.blockring.ring 3).lc_pos,
      (r.2.1.blockring.ring 2).lc_pos)) = some (some 0, none) ∧
    (some 0 : Option Nat) ≠ none ∧
    c4Run.map (fun r => (alookup r.2.1.blocks (testHash 2)).map
      Block.in_longest_chain) = some (some false) := by
  exact ⟨rfl, rfl, by decide, rfl⟩

/-- The false branch of BlockRing::on_chain_reorganization only clears
the slot of the given height (the top-level lc_pos bookkeeping never
touches another slot). -/
theorem ring_reorg_false_slot (br : BlockRing) (id : Nat) (h : SaitoHash)
    (j : Nat) :
    ((br.on_chain_reorganization id h false).1).ring j =
      if j = id % RING_BUFFER_LENGTH
      then { br.ring (id % RING_BUFFER_LENGTH) with lc_pos := none }
      else br.ring j := by
  have hitem : (br.ring (id % RING_BUFFER_LENGTH)).on_chain_reorganization
      h false
      = ({ br.ring (id % RING_BUFFER_LENGTH) with lc_pos := none }, true) :=
    rfl
  simp only [BlockRing.on_chain_reorganization, hitem, Bool.not_true,
    Bool.false_eq_true, if_false, BlockRing.setSlot]
  rcases br with ⟨ring, lcp, emp⟩
  rcases lcp with _ | lcp
  · rfl
  · dsimp only
    repeat' split
    all_goals (first | rfl | simp_all)

theorem lcCleared_idem (b : Block) : lcCleared (lcCleared b) = lcCleared b
    := by
  cases b
  rfl

theorem map_lcCleared_idem (o : Option Block) :
    (o.map lcCleared).map lcCleared = o.map lcCleared := by
  cases o with
  | none => rfl
  | some b =>
    show some (lcCleared (lcCleared b)) = some (lcCleared b)
    rw [lcCleared_idem]

/-- A demote step whose height selects the zero hash does nothing. -/
theorem demoteStep_zero (acc : Blockchain) (i : Nat)
    (hz0 : acc.blockring.get_longest_chain_block_hash_by_block_id i =
      zeroHash) :
    demoteStep acc i = acc := by
  have hno : ¬ (acc.blockring.get_longest_chain_block_hash_by_block_id i ≠
      zeroHash) := fun hcon => hcon hz0
  simp only [demoteStep]
  rw [if_neg hno]

/-- A demote step whose height selects a nonzero hash clears that slot and
that block flag. -/
theorem demoteStep_eq (acc : Blockchain) (i : Nat) (h : SaitoHash)
    (hsel : acc.blockring.get_longest_chain_block_hash_by_block_id i = h)
    (hnz : h ≠ zeroHash) :
    demoteStep acc i = { acc with
      blockring := (acc.blockring.on_chain_reorganization i h false).1
      blocks := aupdate acc.blocks h lcCleared } := by
  simp only [demoteStep, Blockchain.updateBlock, hsel]
  rw [if_pos hnz]

/-- Pointwise characterization of the out-of-order demote fold: slots
outside the processed range are untouched, block-map entries are at most
flag-cleared, and every processed height whose (original) selected hash is
nonzero ends with its slot lc_pos unset and that block's flag cleared. -/
theorem demoteFold_char (bc : Blockchain) :
    ∀ (n s : Nat) (acc : Blockchain),
    s + n ≤ RING_BUFFER_LENGTH →
    (∀ i, s ≤ i → i < s + n →
      acc.blockring.ring i = bc.blockring.ring i) →
    (∀ j, j < s ∨ s + n ≤ j →
      ((List.range' s n).foldl demoteStep acc).blockring.ring j =
        acc.blockring.ring j) ∧
    (∀ k, alookup ((List.range' s n).foldl demoteStep acc).blocks k =
        alookup acc.blocks k ∨
      alookup ((List.range' s n).foldl demoteStep acc).blocks k =
        (alookup acc.blocks k).map lcCleared) ∧
    (∀ i, s ≤ i → i < s + n →
      bc.blockring.get_longest_chain_block_hash_by_block_id i ≠ zeroHash →
      (((List.range' s n).foldl demoteStep acc).blockring.ring i).lc_pos =
          none ∧
      alookup ((List.range' s n).foldl demoteStep acc).blocks
          (bc.blockring.get_longest_chain_block_hash_by_block_id i) =
        (alookup acc.blocks
          (bc.blockring.get_longest_chain_block_hash_by_block_id i)).map
          lcCleared) := by
  intro n
  induction n with
  | zero =>
    intro s acc hle hsame
    refine ⟨fun j hj => rfl, fun k => Or.inl rfl, fun i hsi hin => ?_⟩
    omega
  | succ n ih =>
    intro s acc hle hsame
    have hrange : List.range' s (n + 1) = s :: List.range' (s + 1) n :=
      List.range'_succ s n 1
    rw [hrange, List.foldl_cons]
    have hs_lt : s < RING_BUFFER_LENGTH := by omega
    have hsel : acc.blockring.get_longest_chain_block_hash_by_block_id s =
        bc.blockring.get_longest_chain_block_hash_by_block_id s := by
      simp only [BlockRing.get_longest_chain_block_hash_by_block_id,
        Nat.mod_eq_of_lt hs_lt, hsame s le_rfl (by omega)]
    by_cases hz : bc.blockring.get_longest_chain_block_hash_by_block_id s
        = zeroHash
    · rw [demoteStep_zero acc s (hsel.trans hz)]
      obtain ⟨iha, ihb, ihc⟩ := ih (s + 1) acc (by omega)
        (fun i h1 h2 => hsame i (by omega) (by omega))
      refine ⟨fun j hj => iha j (by omega), ihb,
        fun i hsi hin hne => ?_⟩
      rcases eq_or_lt_of_le hsi with rfl | hlt
      · exact absurd hz hne
      · exact ihc i (by omega) (by omega) hne
    · have hstep := demoteStep_eq acc s
        (bc.blockring.get_longest_chain_block_hash_by_block_id s) hsel hz
      set h := bc.blockring.get_longest_chain_block_hash_by_block_id s
        with hh
      have hring1 : ∀ j, (demoteStep acc s).blockring.ring j =
          if j = s then { acc.blockring.ring s with lc_pos := none }
          else acc.blockring.ring j := by
        intro j
        rw [hstep]
        have hr := ring_reorg_false_slot acc.blockring s h j
        rw [Nat.mod_eq_of_lt hs_lt] at hr
        exact hr
      have hblocks1 : ∀ k, alookup (demoteStep acc s).blocks k =
          if k = h then (alookup acc.blocks h).map lcCleared
          else alookup acc.blocks k := by
        intro k
        rw [hstep]
        by_cases hk : k = h
        · subst hk
          rw [if_pos rfl]
          exact alookup_aupdate acc.blocks h lcCleared
        · rw [if_neg hk]
          exact alookup_aupdate_ne acc.blocks k h lcCleared hk
      obtain ⟨iha, ihb, ihc⟩ := ih (s + 1) (demoteStep acc s) (by omega)
        (fun i h1 h2 => by
          rw [hring1 i, if_neg (by omega)]
          exact hsame i (by omega) (by omega))
      refine ⟨?_, ?_, ?_⟩
      · intro j hj
        rw [iha j (by omega), hring1 j, if_neg (by omega)]
      · intro k
        by_cases hkh : k = h
        · subst hkh
          rcases ihb h with hk | hk
          · rw [hblocks1 h, if_pos rfl] at hk
            exact Or.inr hk
          · rw [hblocks1 h, if_pos rfl, map_lcCleared_idem] at hk
            exact Or.inr hk
        · rcases ihb k with hk | hk
          · rw [hblocks1 k, if_neg hkh] at hk
            exact Or.inl hk
          · rw [hblocks1 k, if_neg hkh] at hk
            exact Or.inr hk
      · intro i hsi hin hne
        rcases eq_or_lt_of_le hsi with rfl | hlt
        · constructor
          · rw [iha s (Or.inl (by omega)), hring1 s, if_pos rfl]
          · rcases ihb h with hk | hk
            · rw [hblocks1 h, if_pos rfl] at hk
              exact hk
            · rw [hblocks1 h, if_pos rfl, map_lcCleared_idem] at hk
              exact hk
        · have hi2 := ihc i (by omega) (by omega) hne
          refine ⟨hi2.1, ?_⟩
          by_cases hih :
              bc.blockring.get_longest_chain_block_hash_by_block_id i = h
          · rw [hih] at hi2 ⊢
            rw [hi2.2, hblocks1 h, if_pos rfl, map_lcCleared_idem]
          · rw [hi2.2, hblocks1
              (bc.blockring.get_longest_chain_block_hash_by_block_id i),
              if_neg hih]

/-- C4, amended.  When the predecessor walk finds no longest-chain block
and the previous_block_hash variable of add_block (the BlockRing latest
hash) is nonzero and equals the current tip, the edge case runs the
demote loop over the half-open interval (block_id, latest_id) — the
EXCLUSIVE upper bound of the source loop, so the latest height itself is
never demoted — sets new_chain to the single new hash and marks the block
as the longest chain: every strictly intermediate height with a nonzero
selected hash has its slot lc_pos unset and its block flag cleared, while
every height at or below block_id and every height at or above latest_id
keeps its ring slot unchanged. -/
theorem C4_out_of_order_amended (bc : Blockchain) (fuel : Nat)
    (block_hash pbh sa : SaitoHash) (block_id : Nat) (nc : List SaitoHash)
    (hwalk : walkNewChain bc.blocks fuel block_hash [] =
      some (nc, false, sa))
    (hne : bc.blockring.is_empty = false)
    (hp0 : pbh ≠ zeroHash)
    (hpt : pbh = bc.get_latest_block_hash)
    (hbid : block_id < bc.get_latest_block_id)
    (hring : bc.get_latest_block_id ≤ RING_BUFFER_LENGTH) :
    forkGeometry bc fuel block_hash pbh block_id =
      some (demoteLoop bc block_id bc.get_latest_block_id, [block_hash],
        [], true) ∧
    (∀ j, j ≤ block_id ∨ bc.get_latest_block_id ≤ j →
      (demoteLoop bc block_id bc.get_latest_block_id).blockring.ring j =
        bc.blockring.ring j) ∧
    (∀ i, block_id < i → i < bc.get_latest_block_id →
      bc.blockring.get_longest_chain_block_hash_by_block_id i ≠ zeroHash →
      ((demoteLoop bc block_id
          bc.get_latest_block_id).blockring.ring i).lc_pos = none ∧
      alookup (demoteLoop bc block_id bc.get_latest_block_id).blocks
          (bc.blockring.get_longest_chain_block_hash_by_block_id i) =
        (alookup bc.blocks
          (bc.blockring.get_longest_chain_block_hash_by_block_id i)).map
          lcCleared) := by
  obtain ⟨ha, hb, hc⟩ := demoteFold_char bc
    (bc.get_latest_block_id - (block_id + 1)) (block_id + 1) bc (by omega)
    (fun i h1 h2 => rfl)
  refine ⟨?_, ?_, ?_⟩
  · unfold forkGeometry
    rw [hwalk]
    simp only [hne, Bool.false_eq_true, if_false, BlockRing.is_empty]
    have hcond : pbh ≠ zeroHash ∧ pbh = bc.get_latest_block_hash :=
      ⟨hp0, hpt⟩
    rw [if_pos hcond]
    have hnot : ¬ (bc.blockring.empty = true) := by
      rw [show bc.blockring.empty = false from hne]
      exact Bool.false_ne_true
    rw [if_neg hnot]
  · intro j hj
    exact ha j (by omega)
  · intro i h1 h2 hsel
    exact hc i (by omega) (by omega) hsel

/-- Concrete state witnessing C4: like c4State but with the out-of-order
block already inserted in the block map, as forkGeometry receives it. -/
def c4WState : Blockchain :=
  { utxoset := fun _ => none
    blockring :=
      { ring := fun i =>
          if i = 1 then ⟨[1], [testHash 1], some 0⟩
          else if i = 2 then ⟨[2], [testHash 2], some 0⟩
          else if i = 3 then ⟨[3], [testHash 3], some 0⟩
          else RingItem.new
        lc_pos := some 3
        empty := false }
    blocks := [(testHash 1, c4B1), (testHash 2, c4B2),
      (testHash 9, c4Block)]
    wallet :=
      { public_key := []
        slips := fun _ => none
        unspent_slips := fun _ => false
        available_balance := 0 }
    genesis_block_id := 0
    fork_id := zeroHash }

/-- Witness for C4 at the concrete out-of-order state: height 2 is
demoted, the slot of the latest height 3 is untouched. -/
theorem C4_out_of_order_amended_witness :
    forkGeometry c4WState 3 (testHash 9) (testHash 3) 1 =
      some (demoteLoop c4WState 1 3, [testHash 9], [], true) ∧
    ((demoteLoop c4WState 1 3).blockring.ring 2).lc_pos = none ∧
    alookup (demoteLoop c4WState 1 3).blocks (testHash 2) =
      (alookup c4WState.blocks (testHash 2)).map lcCleared ∧
    (demoteLoop c4WState 1 3).blockring.ring 3 =
      c4WState.blockring.ring 3 := by
  obtain ⟨h1, h2, h3⟩ := C4_out_of_order_amended c4WState 3 (testHash 9)
    (testHash 3) (testHash 3) 1 [testHash 9] rfl rfl (by decide) rfl
    (by decide) (by decide)
  have hL : c4WState.get_latest_block_id = 3 := rfl
  rw [hL] at h1 h2 h3
  have hsel2 :
      c4WState.blockring.get_longest_chain_block_hash_by_block_id 2 =
        testHash 2 := rfl
  obtain ⟨ha, hb⟩ := h3 2 (by decide) (by decide) (by rw [hsel2]; decide)
  rw [hsel2] at hb
  exact ⟨h1, ha, hb, h2 3 (Or.inr (le_refl 3))⟩

/-! ## C3: density precheck failure in add_block -/

def c3Storage : Storage := ⟨fun _ => none⟩

def c3V : Block → UtxoSet → Bool := fun _ _ => true

def c3Mempool : Mempool := ⟨[], [], fun _ => none, 0, false, []⟩

/-- Six-block longest chain with no golden tickets at all. -/
def c3Blocks : List (SaitoHash × Block) :=
  [(testHash 1, testBlock 1 (testHash 1) zeroHash 0 false true),
   (testHash 2, testBlock 2 (testHash 2) (testHash 1) 0 false true),
   (testHash 3, testBlock 3 (testHash 3) (testHash 2) 0 false true),
   (testHash 4, testBlock 4 (testHash 4) (testHash 3) 0 false true),
   (testHash 5, testBlock 5 (testHash 5) (testHash 4) 0 false true),
   (testHash 6, testBlock 6 (testHash 6) (testHash 5) 0 false true)]

def c3State : Blockchain :=
  { utxoset := fun _ => none
    blockring :=
      { ring := fun i =>
          if 1 ≤ i ∧ i ≤ 6 then ⟨[i], [testHash i], some 0⟩
          else RingItem.new
        lc_pos := some 6
        empty := false }
    blocks := c3Blocks
    wallet :=
      { public_key := []
        slips := fun _ => none
        unspent_slips := fun _ => false
        available_balance := 0 }
    genesis_block_id := 0
    fork_id := zeroHash }

/-- The candidate tip: id 7 over the current tip, without a golden
ticket, so the density precheck fails. -/
def c3Block : Block := testBlock 7 (testHash 7) (testHash 6) 0 false false

def c3Run : Option (AddBlockResult × Blockchain × Mempool) :=
  c3State.add_block c3V c3Storage 8 c3Block c3Mempool

/-- C3, counterexample.  The candidate heads the longest chain and fails
the golden-ticket density precheck; add_block does remove it from the
block map, but it returns FailedButRetry, not FailedNotValid as the claim
states (FailedNotValid is never produced on this path: validate's density
failure flows into add_block_failure, whose result is FailedButRetry). -/
theorem C3_density_failure_counterexample :
    c3Run.map (fun r => r.1) = some AddBlockResult.FailedButRetry ∧
    AddBlockResult.FailedButRetry ≠ AddBlockResult.FailedNotValid ∧
    c3Run.map (fun r => alookup r.2.1.blocks (testHash 7)) = some none :=
  ⟨rfl, by decide, rfl⟩

/-- C3, amended.  When a block not yet indexed (and with no source
connection id, so no fetch detour) heads a chain judged longest, and the
state handed to validate fails the golden-ticket density precheck on the
chain head, add_block treats the block as invalid in the amended sense:
it removes the block from the blocks map — but it returns FailedButRetry,
not FailedNotValid.  The intermediate states bc2-bc5 are pinned by
defining equations mirroring the stages of the source function. -/
theorem C3_density_failure_amended
    (v : Block → UtxoSet → Bool) (storage : Storage) (fuel : Nat)
    (bc : Blockchain) (block : Block) (mempool : Mempool)
    (bc2 bc3 bc4 bc5 : Blockchain) (nc oc : List SaitoHash) (am_i0 : Bool)
    (h0 : SaitoHash) (b0 bx : Block)
    (hnotdup : alookup bc.blocks block.hash = none)
    (hsrc : block.source_connection_id = none)
    (hbc2 : bc2 = { bc with
      blockring :=
        if ¬ bc.blockring.contains_block_hash_at_block_id block.id
            block.hash
        then bc.blockring.add_block block else bc.blockring
      blocks := ainsert bc.blocks block.hash block })
    (hfork : forkGeometry bc2 fuel block.hash
      bc.blockring.get_latest_block_hash block.id =
      some (bc3, nc, oc, am_i0))
    (ham : (if am_i0 then some true
      else bc3.is_new_chain_the_longest_chain nc oc) = some true)
    (hbc4 : bc4 = { bc3 with blockring :=
      { bc3.blockring with empty := false } })
    (hpres : alookup bc4.blocks block.hash = some bx)
    (hbc5 : bc5 = bc4.updateBlock block.hash
      (fun b => { b with in_longest_chain := true }))
    (hhead : nc.head? = some h0)
    (hb0 : alookup bc5.blocks h0 = some b0)
    (hdensity : bc5.is_golden_ticket_count_valid b0.previous_block_hash
      b0.has_golden_ticket = false) :
    ∃ r, bc.add_block v storage fuel block mempool = some r ∧
      r.1 = AddBlockResult.FailedButRetry ∧
      alookup r.2.1.blocks block.hash = none := by
  have hval : validateChains v storage fuel bc5 nc oc =
      some (false, bc5) := by
    unfold validateChains
    rw [hhead]
    dsimp only
    rw [hb0]
    dsimp only
    rw [if_pos (show
      ¬ bc5.is_golden_ticket_count_valid b0.previous_block_hash
        b0.has_golden_ticket = true by
      rw [hdensity]; exact Bool.false_ne_true)]
  have hpres5 : alookup bc5.blocks block.hash =
      some { bx with in_longest_chain := true } := by
    rw [hbc5]
    show alookup (aupdate bc4.blocks block.hash
      (fun b => { b with in_longest_chain := true })) block.hash = _
    rw [alookup_aupdate, hpres]
    rfl
  have hpres3 : alookup bc3.blocks block.hash = some bx := by
    rw [hbc4] at hpres
    exact hpres
  have hpres7 : alookup (bc5.updateBlock block.hash
      (fun b => { b with in_longest_chain := false })).blocks block.hash =
      some { bx with in_longest_chain := false } := by
    show alookup (aupdate bc5.blocks block.hash
      (fun b => { b with in_longest_chain := false })) block.hash = _
    rw [alookup_aupdate, hpres5]
    rfl
  unfold Blockchain.add_block
  dsimp only [Block.generate]
  rw [hnotdup]
  simp only [Option.isSome_none, Bool.false_eq_true, if_false, hsrc,
    and_false, ne_eq]
  rw [← hbc2]
  rw [hfork]
  dsimp only
  rw [ham]
  dsimp only
  rw [if_pos rfl]
  rw [← hbc4]
  rw [hpres3]
  dsimp only
  rw [← hbc5, hval]
  dsimp only [Bool.false_eq_true, if_false]
  rw [hpres5]
  dsimp only
  unfold Blockchain.add_block_failure
  rw [hpres7]
  dsimp only
  by_cases hcr : bx.creator =
      (mempool.delete_block block.hash).public_key
  · rw [if_pos hcr]
    refine ⟨_, rfl, rfl, ?_⟩
    exact alookup_aremove _ block.hash
  · rw [if_neg hcr]
    refine ⟨_, rfl, rfl, ?_⟩
    exact alookup_aremove _ block.hash

/-- The inserted state of the C3 witness (stage bc2 of add_block). -/
def c3Bc2 : Blockchain :=
  { c3State with
    blockring :=
      if ¬ c3State.blockring.contains_block_hash_at_block_id c3Block.id
          c3Block.hash
      then c3State.blockring.add_block c3Block else c3State.blockring
    blocks := ainsert c3State.blocks c3Block.hash c3Block }

/-- Stage bc4 of the C3 witness (blockring marked non-empty). -/
def c3Bc4 : Blockchain :=
  { c3Bc2 with blockring := { c3Bc2.blockring with empty := false } }

/-- Stage bc5 of the C3 witness (candidate marked longest-chain). -/
def c3Bc5 : Blockchain :=
  c3Bc4.updateBlock c3Block.hash
    (fun b => { b with in_longest_chain := true })

/-- Witness for C3 at the concrete six-block chain without golden
tickets. -/
theorem C3_density_failure_amended_witness :
    ∃ r, c3State.add_block c3V c3Storage 8 c3Block c3Mempool = some r ∧
      r.1 = AddBlockResult.FailedButRetry ∧
      alookup r.2.1.blocks c3Block.hash = none := by
  exact C3_density_failure_amended c3V c3Storage 8 c3State c3Block
    c3Mempool c3Bc2 c3Bc2 c3Bc4 c3Bc5 [testHash 7] [] false (testHash 7)
    (testBlock 7 (testHash 7) (testHash 6) 0 false true) c3Block
    rfl rfl rfl rfl rfl rfl rfl rfl rfl rfl rfl
